import Mathlib

/-!
Verification development for the genai-sports-calender pipeline.

Each Python source function that the claims touch is shallowly embedded as an
executable Lean definition, translated statement by statement from the source
files (step1_simple_query_generator.py, step2_search_results.py,
content_scraper.py, tournament_extractor.py, step5_database_storage.py).
Machine-level caveats of the embedding are noted next to each definition.
-/

namespace SportsCal

/-! ## Python string helpers shared by several stages

Python str.lower / str.strip / slicing are modelled with the core Lean
string functions.  Python's strip removes a slightly larger whitespace set
than Char.isWhitespace; the difference (rare unicode spaces) is not exercised
by any input in this development.
-/

/-- Python s.lower() restricted to ASCII case mapping (the inputs used by the
pipeline are ASCII apart from a rupee sign, which lower() leaves unchanged). -/
def pyLower (s : String) : String :=
  String.mk (s.data.map Char.toLower)

/-- Python whitespace (ASCII part): space, tab, newline, carriage return,
vertical tab, form feed. -/
def pySpace (c : Char) : Bool :=
  c = ' ' || c = '\t' || c = '\n' || c = '\r' || c = Char.ofNat 11 || c = Char.ofNat 12

/-- Python s.strip() with no argument: remove leading and trailing whitespace. -/
def pyStrip (s : String) : String :=
  String.mk (((s.data.dropWhile pySpace).reverse.dropWhile pySpace).reverse)

/-- Python s.rstrip() with no argument. -/
def pyStripRight (s : String) : String :=
  String.mk ((s.data.reverse.dropWhile pySpace).reverse)

/-- Python s[:n] on a string: take the first n characters. -/
def pySlice (s : String) (n : Nat) : String :=
  String.mk (s.data.take n)

/-- Python s.startswith(pre). -/
def pyStartsWith (s pre : String) : Bool :=
  pre.data.isPrefixOf s.data

/-- Python s.endswith(suf). -/
def pyEndsWith (s suf : String) : Bool :=
  suf.data.reverse.isPrefixOf s.data.reverse

/-- Scanner of Python s.replace(old, new) for a non-empty old: leftmost
non-overlapping occurrences, fuelled by the text length. -/
def pyReplaceAux (old new : List Char) : Nat → List Char → List Char
  | 0, cs => cs
  | _ + 1, [] => []
  | f + 1, c :: rest =>
    if old.isPrefixOf (c :: rest) then
      new ++ pyReplaceAux old new f ((c :: rest).drop old.length)
    else
      c :: pyReplaceAux old new f rest

/-- Python s.replace(old, new) (every caller here passes a non-empty old). -/
def pyReplace (s old new : String) : String :=
  String.mk (pyReplaceAux old.data new.data (s.data.length + 1) s.data)

/-- Python s.split(sep) for a single-character separator. -/
def pySplitChar (sep : Char) (s : String) : List String :=
  (s.data.foldr
    (fun c acc =>
      match acc with
      | h :: t => if c = sep then [] :: h :: t else (c :: h) :: t
      | [] => [[c]])
    [[]]).map String.mk

/-- Python sep.join(lines) for a single-character separator. -/
def pyJoinChar (sep : Char) (lines : List String) : String :=
  String.mk (joinAux (lines.map String.data))
where
  joinAux : List (List Char) → List Char
    | [] => []
    | [l] => l
    | l :: ls => l ++ sep :: joinAux ls

/-! ## Step 1: query generator (step1_simple_query_generator.py)

A query dict as built by step1_generate_base_queries has the five string
fields below; step3_remove_duplicates reads only the "query" field.
-/

structure Query where
  sport : String
  level : String
  query : String
  source : String
  template_type : String
deriving DecidableEq, Repr

/-- Dedup key used by step3_remove_duplicates: query['query'].lower().strip(). -/
def queryKey (q : Query) : String :=
  pyStrip (pyLower q.query)

/-- Loop body of step3_remove_duplicates: walk the list carrying the set of
seen keys, keep a query exactly when its key has not been seen. -/
def removeDupsAux (seen : List String) : List Query → List Query
  | [] => []
  | q :: rest =>
    if queryKey q ∈ seen then
      removeDupsAux seen rest
    else
      q :: removeDupsAux (queryKey q :: seen) rest

/-- step3_remove_duplicates from step1_simple_query_generator.py: keeps the
first occurrence of each lower-cased, stripped query text, preserving order. -/
def step3_remove_duplicates (queries : List Query) : List Query :=
  removeDupsAux [] queries

/-! ## Step 2: search collector (step2_search_results.py)

A search result dict; relevance_score is only present after
filter_relevant_results has set it and priority_rank only after
prioritize_results, so both are Options, matching the .get defaults used in
prioritize_results.
-/

structure SearchResult where
  sport : String
  level : String
  query : String
  title : String
  link : String
  snippet : String
  position : Option Int
  relevance_score : Option ℚ
  priority_rank : Option Nat
deriving DecidableEq, Repr

/-- Sort key of prioritize_results:
(-x.get('relevance_score', 0), x.get('position', 999)). -/
def srKey (r : SearchResult) : ℚ × Int :=
  (Rat.neg (r.relevance_score.getD (mkRat 0 1)), r.position.getD 999)

/-- Boolean lexicographic comparison of the sort keys, the order Python's
stable sorted() realises for the key tuple above. -/
def srLE (a b : SearchResult) : Bool :=
  Rat.blt (srKey a).1 (srKey b).1 ||
    ((srKey a).1 == (srKey b).1 && decide ((srKey a).2 ≤ (srKey b).2))

/-- Loop that sets result['priority_rank'] = i + 1 over the sorted list,
with i starting from the given index. -/
def assignRanks (i : Nat) : List SearchResult → List SearchResult
  | [] => []
  | r :: rest => { r with priority_rank := some (i + 1) } :: assignRanks (i + 1) rest

/-- prioritize_results from step2_search_results.py: a stable sort (Python's
sorted) on the key tuple, then 1-based priority ranks in sorted order. -/
def prioritize_results (results : List SearchResult) : List SearchResult :=
  assignRanks 0 (results.mergeSort srLE)

/-! ## Python value model

Dicts produced by json.loads and manipulated by the extractor are modelled as
insertion-ordered association lists, numbers as rationals (the pipeline only
compares and clamps decimal literals, all of which behave identically under
rational and binary-float arithmetic here), and the two uncaught exception
kinds the extractor can hit as an error type.
-/

inductive Val where
  | null : Val
  | bool : Bool → Val
  | num : ℚ → Val
  | str : String → Val
  | arr : List Val → Val
  | obj : List (String × Val) → Val
deriving Repr

inductive PyErr where
  | typeError : PyErr
  | attributeError : PyErr
  | valueError : PyErr
deriving Repr, DecidableEq

/-- Lookup in a Python dict (first binding of the key; keys are unique). -/
def dictGet? : List (String × Val) → String → Option Val
  | [], _ => none
  | kv :: rest, k => if kv.1 == k then some kv.2 else dictGet? rest k

/-- Python d.get(k, default). -/
def dictGet (fs : List (String × Val)) (k : String) (d : Val) : Val :=
  (dictGet? fs k).getD d

/-- Python d[k] = v: update in place when the key exists, else append. -/
def dictSet (fs : List (String × Val)) (k : String) (v : Val) : List (String × Val) :=
  if fs.any (fun kv => kv.1 == k) then
    fs.map (fun kv => if kv.1 == k then (k, v) else kv)
  else
    fs ++ [(k, v)]

/-- Python d.pop(k) (the removal part; the popped value is read separately). -/
def dictPop (fs : List (String × Val)) (k : String) : List (String × Val) :=
  fs.filter (fun kv => kv.1 != k)

/-- Python float(s) for strings: optional sign, decimal digits with optional
fraction and exponent.  Python additionally accepts inf/nan spellings and
underscores, which never occur in this pipeline's data. -/
def splitSign : List Char → Bool × List Char
  | '-' :: r => (true, r)
  | '+' :: r => (false, r)
  | r => (false, r)

def digitsVal (cs : List Char) : Nat :=
  cs.foldl (fun a c => a * 10 + (c.toNat - 48)) 0

def pyFloatOfString (s : String) : Option ℚ :=
  let (neg, cs0) := splitSign (pyStrip s).data
  let (ip, cs1) := cs0.span Char.isDigit
  let (fp, cs2) :=
    match cs1 with
    | '.' :: r => r.span Char.isDigit
    | _ => ([], cs1)
  if ip = [] ∧ fp = [] then none
  else
    let base : Nat := 10 ^ fp.length
    let mantNat : Nat := digitsVal ip * base + digitsVal fp
    let mantInt : ℤ := if neg then -(mantNat : ℤ) else (mantNat : ℤ)
    match cs2 with
    | [] => some (mkRat mantInt base)
    | e :: r =>
      if e = 'e' ∨ e = 'E' then
        let (eneg, r1) := splitSign r
        let (ed, r2) := r1.span Char.isDigit
        if ed = [] ∨ r2 ≠ [] then none
        else if eneg then some (mkRat mantInt (base * 10 ^ digitsVal ed))
        else some (mkRat (mantInt * ((10 : ℕ) ^ digitsVal ed : ℕ)) base)
      else none

/-- Python max(a, b) on two floats: the second argument wins only when it is
strictly larger. -/
def pyMax (a b : ℚ) : ℚ :=
  if Rat.blt a b then b else a

/-- Python min(a, b) on two floats: the second argument wins only when it is
strictly smaller. -/
def pyMin (a b : ℚ) : ℚ :=
  if Rat.blt b a then b else a

/-- Python truthiness of a value. -/
def pyTruthy : Val → Bool
  | .null => false
  | .bool b => b
  | .num q => q ≠ 0
  | .str s => s ≠ ""
  | .arr xs => ¬xs.isEmpty
  | .obj fs => ¬fs.isEmpty

/-! ## Step 4: tournament extractor (tournament_extractor.py) -/

namespace Extractor

/-- Test for membership in the placeholder list
['N/A', 'Not available', 'Not specified', '', None] under Python equality
(no number or boolean equals any of those five values). -/
def isPlaceholder : Val → Bool
  | .str s => s = "N/A" ∨ s = "Not available" ∨ s = "Not specified" ∨ s = ""
  | .null => true
  | _ => false

/-- Numeric view used by max/min and the >= comparison: Python numbers and
bools compare numerically with floats; None, strings (already converted
before this point in enhance), lists and dicts raise TypeError. -/
def valToNum : Val → Except PyErr ℚ
  | .num q => .ok q
  | .bool b => .ok (if b then mkRat 1 1 else mkRat 0 1)
  | _ => .error .typeError

/-- Key renaming at the top of the per-tournament loop of
enhance_tournament_data: a tournament_date entry is popped and written back
under date. -/
def renameTournamentDate (fs : List (String × Val)) : List (String × Val) :=
  if fs.any (fun kv => kv.1 == "tournament_date") then
    dictSet (dictPop fs "tournament_date") "date" (dictGet fs "tournament_date" .null)
  else fs

/-- The enhanced_tournament.update(...) call: stamp the source context and
the fixed timestamp/provenance fields. -/
def stampContext (search_context fs : List (String × Val)) : List (String × Val) :=
  dictSet (dictSet (dictSet (dictSet (dictSet (renameTournamentDate fs)
    "source_url" (dictGet search_context "original_query" (.str "")))
    "source_sport" (dictGet search_context "sport" (.str "")))
    "source_level" (dictGet search_context "level" (.str "")))
    "extraction_timestamp" (.str "2025-08-16T00:00:00Z"))
    "data_source" (.str "llm_extracted")

/-- Confidence extraction of enhance_tournament_data: the field (defaulting
to 0.0), with strings converted by float() or defaulting to 0.5 on
ValueError, and every other value handed to the numeric comparison that
max() performs. -/
def confFrom (fs : List (String × Val)) : Except PyErr ℚ :=
  match dictGet fs "confidence_score" (.num (mkRat 0 1)) with
  | .str s => .ok ((pyFloatOfString s).getD (mkRat 1 2))
  | v => valToNum v

/-- The clamp min(max(confidence, 0.0), 1.0). -/
def clamp01 (q : ℚ) : ℚ :=
  pyMin (pyMax q (mkRat 0 1)) (mkRat 1 1)

/-- Replacement applied by the clean-empty-fields loop to one value. -/
def placeholderToNull (v : Val) : Val :=
  if isPlaceholder v then Val.null else v

/-- The clean-empty-fields loop of enhance_tournament_data: every
placeholder value becomes None. -/
def clearPlaceholders (fs : List (String × Val)) : List (String × Val) :=
  fs.map (fun kv => (kv.1, placeholderToNull kv.2))

/-- Body of the per-tournament loop of enhance_tournament_data.
search_context is the dict bound by context.get('search_context', {}) at the
top of the function.  A non-dict tournament raises AttributeError at
tournament.copy() or enhanced_tournament.update(...).  When the clamped
confidence is a bool, Python keeps the bool (numerically equal to the
rational stored here); no later stage distinguishes the two. -/
def enhanceOne (search_context : List (String × Val)) (t : Val) : Except PyErr Val :=
  match t with
  | .obj fs =>
    match confFrom (stampContext search_context fs) with
    | .error e => .error e
    | .ok confQ =>
      .ok (.obj (clearPlaceholders (dictSet (stampContext search_context fs)
        "confidence_score" (.num (clamp01 confQ)))))
  | _ => .error .attributeError

/-- enhance_tournament_data from tournament_extractor.py, specialised to the
search_context dict it reads from its context argument. -/
def enhance_tournament_data (search_context : List (String × Val)) :
    List Val → Except PyErr (List Val)
  | [] => .ok []
  | t :: rest =>
    match enhanceOne search_context t with
    | .error e => .error e
    | .ok t' =>
      match enhance_tournament_data search_context rest with
      | .error e => .error e
      | .ok rest' => .ok (t' :: rest')

/-- Confidence test of filter_by_confidence:
tournament.get('confidence_score', 0.0) >= 0.7. -/
def confAtLeastMin (t : Val) : Except PyErr Bool :=
  match t with
  | .obj fs =>
    match valToNum (dictGet fs "confidence_score" (.num (mkRat 0 1))) with
    | .error e => .error e
    | .ok q => .ok (decide (mkRat 7 10 ≤ q))
  | _ => .error .attributeError

/-- filter_by_confidence from tournament_extractor.py
(self.min_confidence_score = 0.7). -/
def filter_by_confidence : List Val → Except PyErr (List Val)
  | [] => .ok []
  | t :: rest =>
    match confAtLeastMin t with
    | .error e => .error e
    | .ok keep =>
      match filter_by_confidence rest with
      | .error e => .error e
      | .ok rest' => .ok (if keep then t :: rest' else rest')

/-- String cleaning inside _clean_tournament_data for one value. -/
def cleanVal : Val → Val
  | .null => .null
  | .str s =>
    let c := pyStrip s
    if c ≠ "" ∧ c ≠ "N/A" ∧ c ≠ "Not available" ∧ c ≠ "Not specified" then
      .str (pySlice c 500)
    else
      .null
  | v => v

/-- The private helper _clean_tournament_data (validate only calls it on
dicts; on any other value the loop over .items() would raise, a path the
source never takes). -/
def cleanTournament : Val → Val
  | .obj fs => .obj (fs.map (fun kv => (kv.1, cleanVal kv.2)))
  | v => v

/-- Evaluation of bool(tournament.get(k, '').strip()): a missing key yields
the default '' and False; a stored None (or number, list, dict) raises
AttributeError because it has no .strip method. -/
def getStripTruthy (fs : List (String × Val)) (k : String) : Except PyErr Bool :=
  match dictGet fs k (.str "") with
  | .str s => .ok (pyStrip s ≠ "")
  | _ => .error .attributeError

/-- Body of the per-tournament loop of validate_tournament_data: both
required-field tests run (the date test before the short-circuited venue
test), then the record is kept and cleaned or silently skipped. -/
def validateOne (t : Val) : Except PyErr (Option Val) :=
  match t with
  | .obj fs =>
    match getStripTruthy fs "name" with
    | .error e => .error e
    | .ok hasName =>
      match getStripTruthy fs "date" with
      | .error e => .error e
      | .ok hasDate =>
        match if hasDate then .ok true else getStripTruthy fs "venue" with
        | .error e => .error e
        | .ok hasDateOrVenue =>
          if hasName ∧ hasDateOrVenue then
            .ok (some (cleanTournament (.obj fs)))
          else
            .ok none
  | _ => .error .attributeError

/-- validate_tournament_data from tournament_extractor.py. -/
def validate_tournament_data : List Val → Except PyErr (List Val)
  | [] => .ok []
  | t :: rest =>
    match validateOne t with
    | .error e => .error e
    | .ok kept =>
      match validate_tournament_data rest with
      | .error e => .error e
      | .ok rest' => .ok (match kept with | some c => c :: rest' | none => rest')

end Extractor

/-! ## A small backtracking regex engine

The Python source uses re.findall with a handful of fixed patterns.  Each
pattern is transcribed below into this syntax.  The engine implements
Python's leftmost search with greedy quantifiers, left-preferring
alternation, word boundaries, and a single capturing group (no source
pattern has more than one).  Character classes are the ASCII reading of the
patterns; every scanned text in this development is ASCII apart from a rupee
sign, which belongs to none of the classes used.
-/

namespace Rex

inductive RE where
  | eps : RE
  | cls : (Char → Bool) → RE
  | seq : RE → RE → RE
  | alt : RE → RE → RE
  | rep : RE → Nat → Nat → RE
  | group : RE → RE
  | wordB : RE

/-- ASCII \w test used for word boundaries. -/
def isWordChar (c : Char) : Bool :=
  c.isAlphanum || c = '_'

/-- Python \s (ASCII part), the same set as pySpace. -/
def isPySpace (c : Char) : Bool :=
  pySpace c

/-- Static bound on the nesting depth of matcher calls for a pattern: each
recursive call of reM targets a pattern of strictly smaller depth, so
starting from this fuel the out-of-fuel branch is unreachable. -/
def reDepth : RE → Nat
  | .eps => 1
  | .wordB => 1
  | .cls _ => 1
  | .seq a b => 1 + reDepth a + reDepth b
  | .alt a b => 1 + max (reDepth a) (reDepth b)
  | .group a => 1 + reDepth a
  | .rep a _ hi => 1 + (hi + 1) * (reDepth a + 1)

/-- Backtracking matcher in continuation style.  prev is the character just
before the current position (for word boundaries), cap the text consumed so
far by the capturing group.  Successes are tried in Python's preference
order: alternation left first, repetition as many times as possible first.
Recursion is structural on the fuel, which reDepth makes sufficient. -/
def reM {β : Type} : Nat → RE → Option Char → List Char → Option (List Char) →
    (Option Char → List Char → Option (List Char) → Option β) → Option β
  | 0, _, _, _, _, _ => none
  | _ + 1, .eps, prev, s, cap, k => k prev s cap
  | _ + 1, .wordB, prev, s, cap, k =>
    let wPrev := match prev with | some c => isWordChar c | none => false
    let wNext := match s with | c :: _ => isWordChar c | [] => false
    if wPrev ≠ wNext then k prev s cap else none
  | _ + 1, .cls p, _, s, cap, k =>
    match s with
    | [] => none
    | c :: rest => if p c then k (some c) rest cap else none
  | f + 1, .seq a b, prev, s, cap, k =>
    reM f a prev s cap (fun p1 s1 c1 => reM f b p1 s1 c1 k)
  | f + 1, .alt a b, prev, s, cap, k =>
    (reM f a prev s cap k).orElse (fun _ => reM f b prev s cap k)
  | f + 1, .group a, prev, s, cap, k =>
    reM f a prev s cap (fun p1 s1 _ => k p1 s1 (some (s.take (s.length - s1.length))))
  | f + 1, .rep a lo hi, prev, s, cap, k =>
    match hi with
    | 0 => if lo = 0 then k prev s cap else none
    | h + 1 =>
      let more := reM f a prev s cap (fun p1 s1 c1 => reM f (.rep a (lo - 1) h) p1 s1 c1 k)
      if lo = 0 then more.orElse (fun _ => k prev s cap) else more

/-- Attempt a match anchored at the current position, returning the consumed
length and the group capture of the preferred match. -/
def matchHere (r : RE) (prev : Option Char) (s : List Char) :
    Option (Nat × Option (List Char)) :=
  reM (reDepth r) r prev s none (fun _ s1 cap => some (s.length - s1.length, cap))

/-- Scan of re.findall: try at each position, emit non-overlapping matches
left to right, restarting right after each match (one character further for
an empty match, as Python does). -/
def scan (r : RE) : Nat → Option Char → List Char → List (String × Option String)
  | 0, _, _ => []
  | f + 1, prev, s =>
    match matchHere r prev s with
    | some (len, cap) =>
      let m := (String.mk (s.take len), cap.map String.mk)
      if len = 0 then
        match s with
        | [] => [m]
        | c :: rest => m :: scan r f (some c) rest
      else
        m :: scan r f (s.take len).getLast? (s.drop len)
    | none =>
      match s with
      | [] => []
      | c :: rest => scan r f (some c) rest

/-- All matches of the pattern in the string, as (whole match, group 1). -/
def reFindAll (r : RE) (s : String) : List (String × Option String) :=
  scan r (s.length + 1) none s.data

/-- re.findall for a pattern without groups: the whole matches. -/
def findallWhole (r : RE) (s : String) : List String :=
  (reFindAll r s).map (·.1)

/-- re.findall for a pattern with one group: the group text per match, the
empty string when the optional group did not participate. -/
def findallGroup1 (r : RE) (s : String) : List String :=
  (reFindAll r s).map (fun m => m.2.getD "")

/-- Single literal character. -/
def chP (c : Char) : RE := .cls (fun x => x = c)

/-- Single literal character, case-insensitively (re.IGNORECASE). -/
def chCI (c : Char) : RE := .cls (fun x => x.toLower = c.toLower)

/-- Literal string. -/
def litP : List Char → RE
  | [] => .eps
  | c :: cs => .seq (chP c) (litP cs)

/-- Literal string, case-insensitively. -/
def litCI : List Char → RE
  | [] => .eps
  | c :: cs => .seq (chCI c) (litCI cs)

/-- Left-preferring alternation of a list of branches. -/
def altList : List RE → RE
  | [] => .cls (fun _ => false)
  | [r] => r
  | r :: rs => .alt r (altList rs)

/-- ASCII \d. -/
def digitP : RE := .cls Char.isDigit

end Rex

/-! ## Step 3: content scraper (content_scraper.py) -/

namespace Scraper

open Rex

/-- Python list(set(xs)): CPython's set iteration order is unspecified (hash
randomised for strings); the model fixes first-occurrence order.  Every
claim below applies this only to lists with at most one distinct element,
where all orders agree. -/
def pyListSet (xs : List String) : List String :=
  xs.foldl (fun acc x => if x ∈ acc then acc else acc ++ [x]) []

/-- Python substring test (the in operator on str): the needle is a
contiguous run inside the haystack. -/
def strContains (hay needle : String) : Bool :=
  hay.data.tails.any (fun t => needle.data.isPrefixOf t)

/-- The twelve month names of the date patterns, as one alternation group. -/
def monthGroup : RE :=
  .group (altList (["January", "February", "March", "April", "May", "June", "July",
    "August", "September", "October", "November", "December"].map (fun m => litCI m.data)))

/-- Character class of a slash or a hyphen, the date separator class. -/
def slashDash : RE := .cls (fun c => c = '/' || c = '-')

/-- First date pattern: \d{1,2}, separator, \d{1,2}, separator, \d{4}. -/
def dateRE1 : RE :=
  .seq (.rep digitP 1 2) (.seq slashDash (.seq (.rep digitP 1 2) (.seq slashDash (.rep digitP 4 4))))

/-- Second date pattern: \d{4}, separator, \d{1,2}, separator, \d{1,2}. -/
def dateRE2 : RE :=
  .seq (.rep digitP 4 4) (.seq slashDash (.seq (.rep digitP 1 2) (.seq slashDash (.rep digitP 1 2))))

/-- Pattern \d{1,2}\s+(Month|...)\s+\d{4} with re.IGNORECASE; n bounds the
unbounded \s+ repetitions (any n at least the text length is exact). -/
def dateRE3 (n : Nat) : RE :=
  .seq (.rep digitP 1 2) (.seq (.rep (.cls isPySpace) 1 n)
    (.seq monthGroup (.seq (.rep (.cls isPySpace) 1 n) (.rep digitP 4 4))))

/-- Pattern (Month|...)\s+\d{1,2},?\s+\d{4} with re.IGNORECASE. -/
def dateRE4 (n : Nat) : RE :=
  .seq monthGroup (.seq (.rep (.cls isPySpace) 1 n)
    (.seq (.rep digitP 1 2) (.seq (.rep (chP ',') 0 1)
      (.seq (.rep (.cls isPySpace) 1 n) (.rep digitP 4 4)))))

/-- The private helper _extract_dates: findall of the four patterns in order
(the third and fourth return their month group, as re.findall does for a
pattern with one group), then list(set(...))[:5]. -/
def _extract_dates (content : String) : List String :=
  let n := content.length
  let dates :=
    findallWhole dateRE1 content ++ findallWhole dateRE2 content ++
    findallGroup1 (dateRE3 n) content ++ findallGroup1 (dateRE4 n) content
  (pyListSet dates).take 5

/-- The private helper _extract_location: keep each line containing one of
the location keywords (first keyword hit breaks the inner loop), stripped
and cut to 100 characters, then list(set(...))[:3]. -/
def _extract_location (content : String) : List String :=
  let location_keywords := ["venue", "location", "place", "address", "city", "state"]
  let locations := (pySplitChar '\n' content).filterMap (fun line =>
    if location_keywords.any (fun kw => strContains (pyLower line) kw) then
      some (pySlice (pyStrip line) 100)
    else none)
  (pyListSet locations).take 3

/-- Email pattern \b[A-Za-z0-9._%+-]+@[A-Za-z0-9.-]+\.[A-Z|a-z]{2,}\b
(the literal | inside the last class is kept); n bounds the unbounded
repetitions. -/
def emailRE (n : Nat) : RE :=
  .seq .wordB (.seq (.rep (.cls (fun c => c.isAlphanum || c = '.' || c = '_' || c = '%' || c = '+' || c = '-')) 1 n)
    (.seq (chP '@') (.seq (.rep (.cls (fun c => c.isAlphanum || c = '.' || c = '-')) 1 n)
      (.seq (chP '.') (.seq (.rep (.cls (fun c => c.isAlpha || c = '|')) 2 n) .wordB)))))

/-- Phone pattern (\+91|91)?[\s-]?[6-9]\d{9}: the one capturing group is the
optional country prefix, so re.findall returns that prefix (or the empty
string), not the ten-digit number. -/
def phoneRE : RE :=
  .seq (.rep (.group (.alt (litP ['+', '9', '1'])  (litP ['9', '1']))) 0 1)
    (.seq (.rep (.cls (fun c => isPySpace c || c = '-')) 0 1)
      (.seq (.cls (fun c => '6' ≤ c && c ≤ '9')) (.rep digitP 9 9)))

/-- The private helper _extract_contact_info: up to two email entries then up
to two phone entries, the phone text being findall's group-1 value. -/
def _extract_contact_info (content : String) : List String :=
  let emails := findallWhole (emailRE content.length) content
  let phones := findallGroup1 phoneRE content
  (emails.take 2).map (fun email => "Email: " ++ email) ++
    (phones.take 2).map (fun phone => "Phone: " ++ phone)

end Scraper

/-! ## A JSON parser modelling Python json.loads

Strict JSON values, whitespace, strings with escapes, and numbers.  Python
additionally accepts NaN/Infinity spellings and combines surrogate pairs;
neither occurs in this development.  Recursion is fuelled; the initial fuel
of three units per character strictly dominates the parser's work, so fuel
exhaustion is unreachable from jsonLoads (Python itself errors on nesting
beyond its recursion limit).
-/

namespace Json

def lbrace : Char := Char.ofNat 123

def rbrace : Char := Char.ofNat 125

def jsonWs (c : Char) : Bool :=
  c = ' ' || c = '\t' || c = '\n' || c = '\r'

def skipWs (cs : List Char) : List Char :=
  cs.dropWhile jsonWs

def hexVal (c : Char) : Option Nat :=
  if c.isDigit then some (c.toNat - 48)
  else if 'a' ≤ c ∧ c ≤ 'f' then some (c.toNat - 87)
  else if 'A' ≤ c ∧ c ≤ 'F' then some (c.toNat - 55)
  else none

/-- Body of a JSON string after the opening quote; returns the decoded
string and the input after the closing quote. -/
def parseStrBody : Nat → List Char → List Char → Except String (String × List Char)
  | 0, _, _ => .error "fuel exhausted"
  | f + 1, acc, cs =>
    match cs with
    | [] => .error "Unterminated string"
    | '"' :: rest => .ok (String.mk acc.reverse, rest)
    | '\\' :: e :: rest =>
      match e with
      | '"' => parseStrBody f ('"' :: acc) rest
      | '\\' => parseStrBody f ('\\' :: acc) rest
      | '/' => parseStrBody f ('/' :: acc) rest
      | 'b' => parseStrBody f (Char.ofNat 8 :: acc) rest
      | 'f' => parseStrBody f (Char.ofNat 12 :: acc) rest
      | 'n' => parseStrBody f ('\n' :: acc) rest
      | 'r' => parseStrBody f ('\r' :: acc) rest
      | 't' => parseStrBody f ('\t' :: acc) rest
      | 'u' =>
        match rest with
        | a :: b :: c :: d :: rest2 =>
          match hexVal a, hexVal b, hexVal c, hexVal d with
          | some x, some y, some z, some w =>
            parseStrBody f (Char.ofNat (((x * 16 + y) * 16 + z) * 16 + w) :: acc) rest2
          | _, _, _, _ => .error "Invalid hex escape"
        | _ => .error "Invalid hex escape"
      | _ => .error "Invalid escape"
    | c :: rest => parseStrBody f (c :: acc) rest

/-- JSON number: optional minus, integer part without leading zeros,
optional fraction, optional exponent. -/
def parseNum (cs : List Char) : Except String (ℚ × List Char) :=
  let (neg, cs1) := match cs with | '-' :: r => (true, r) | r => (false, r)
  let ipOpt : Option (Nat × List Char) :=
    match cs1 with
    | '0' :: r => some (0, r)
    | c :: r =>
      if c.isDigit then
        let (ds, r2) := r.span Char.isDigit
        some (digitsVal (c :: ds), r2)
      else none
    | [] => none
  match ipOpt with
  | none => .error "Expecting value"
  | some (ip, cs2) =>
    let fracOpt : Option (Nat × Nat × List Char) :=
      match cs2 with
      | '.' :: r =>
        let (fd, r2) := r.span Char.isDigit
        if fd = [] then none
        else some (digitsVal fd, 10 ^ fd.length, r2)
      | _ => some (0, 1, cs2)
    match fracOpt with
    | none => .error "Expecting value"
    | some (fv, base, cs3) =>
      let mantNat : Nat := ip * base + fv
      let mantInt : ℤ := if neg then -(mantNat : ℤ) else (mantNat : ℤ)
      match cs3 with
      | e :: r =>
        if e = 'e' ∨ e = 'E' then
          let (eneg, r1) := splitSign r
          let (ed, r2) := r1.span Char.isDigit
          if ed = [] then .error "Expecting value"
          else if eneg then .ok (mkRat mantInt (base * 10 ^ digitsVal ed), r2)
          else .ok (mkRat (mantInt * ((10 : ℕ) ^ digitsVal ed : ℕ)) base, r2)
        else .ok (mkRat mantInt base, cs3)
      | [] => .ok (mkRat mantInt base, cs3)

/-- Literal true/false/null tails. -/
def expectLit (lit : List Char) (cs : List Char) (v : Val) : Except String (Val × List Char) :=
  if lit.isPrefixOf cs then .ok (v, cs.drop lit.length) else .error "Expecting value"

/-- Mode of the recursive descent: a value, the interior of an array (first
element or after a comma, with the elements parsed so far), or the interior
of an object (likewise). -/
inductive PMode where
  | val : PMode
  | arrFirst : PMode
  | arrElems : List Val → PMode
  | objFirst : PMode
  | objMembers : List (String × Val) → PMode

/-- Recursive-descent step, structurally recursive on fuel (each recursive
call follows at least one consumed character, so the initial fuel chosen in
jsonLoads makes the out-of-fuel branch unreachable). -/
def parseStep : Nat → PMode → List Char → Except String (Val × List Char)
  | 0, _, _ => .error "fuel exhausted"
  | f + 1, .val, cs =>
    match skipWs cs with
    | [] => .error "Expecting value"
    | c :: rest =>
      if c = '"' then (parseStrBody (rest.length + 1) [] rest).map (fun p => (.str p.1, p.2))
      else if c = lbrace then parseStep f .objFirst rest
      else if c = '[' then parseStep f .arrFirst rest
      else if c = 't' then expectLit ['r', 'u', 'e'] rest (.bool true)
      else if c = 'f' then expectLit ['a', 'l', 's', 'e'] rest (.bool false)
      else if c = 'n' then expectLit ['u', 'l', 'l'] rest .null
      else (parseNum (c :: rest)).map (fun p => (.num p.1, p.2))
  | f + 1, .arrFirst, cs =>
    match skipWs cs with
    | ']' :: rest => .ok (.arr [], rest)
    | other => parseStep f (.arrElems []) other
  | f + 1, .arrElems acc, cs => do
    let (v, r) ← parseStep f .val cs
    match skipWs r with
    | ',' :: r2 => parseStep f (.arrElems (v :: acc)) r2
    | ']' :: r2 => .ok (.arr (v :: acc).reverse, r2)
    | _ => .error "Expecting delimiter"
  | f + 1, .objFirst, cs =>
    match skipWs cs with
    | c :: rest =>
      if c = rbrace then .ok (.obj [], rest)
      else parseStep f (.objMembers []) (c :: rest)
    | [] => .error "Expecting property name"
  | f + 1, .objMembers acc, cs =>
    match skipWs cs with
    | '"' :: r => do
      let (k, r1) ← parseStrBody (r.length + 1) [] r
      match skipWs r1 with
      | ':' :: r2 => do
        let (v, r3) ← parseStep f .val r2
        match skipWs r3 with
        | ',' :: r4 => parseStep f (.objMembers (dictSet acc k v)) r4
        | c :: r4 =>
          if c = rbrace then .ok (.obj (dictSet acc k v), r4)
          else .error "Expecting delimiter"
        | [] => .error "Expecting delimiter"
      | _ => .error "Expecting colon"
    | _ => .error "Expecting property name"

/-- Python json.loads: a single JSON document with nothing but whitespace
after it. -/
def jsonLoads (s : String) : Except String Val := do
  let (v, rest) ← parseStep (3 * s.length + 16) .val s.data
  if skipWs rest = [] then .ok v else .error "Extra data"

end Json

namespace Extractor

open Rex

/-- Code-fence cleanup at the top of the response handling in
extract_tournaments_with_llm (str.replace replaces every occurrence). -/
def cleanFences (r : String) : String :=
  if pyStartsWith r "```json" then pyStrip (pyReplace (pyReplace r "```json" "") "```" "")
  else if pyStartsWith r "```" then pyStrip (pyReplace r "```" "")
  else r

/-- The find('[') / rfind(']') slice: when both brackets occur in order, cut
to the outermost bracketed span, otherwise keep the whole response. -/
def bracketSlice (r : String) : String :=
  let cs := r.data
  match cs.findIdx? (· = '['), (cs.reverse.findIdx? (· = ']')).map (fun i => cs.length - 1 - i) with
  | some s, some e => if s < e then String.mk ((cs.drop s).take (e + 1 - s)) else r
  | _, _ => r

/-- Per-line repair inside _fix_json_string: a line with an odd number of
double quotes is right-stripped and either gets its trailing comma replaced
by a closing quote plus comma, or a closing quote appended. -/
def fixLine (line : String) : String :=
  if line.data.count '"' % 2 ≠ 0 then
    let r := pyStripRight line
    if pyEndsWith r "," then String.mk r.data.dropLast ++ "\","
    else r ++ "\""
  else line

/-- The private helper _fix_json_string: drop commas directly before closing
brackets, then apply the per-line quote repair. -/
def _fix_json_string (json_str : String) : String :=
  let s := pyReplace (pyReplace json_str ",]" "]") ",\x7d" "\x7d"
  pyJoinChar '\n' ((pySplitChar '\n' s).map fixLine)

/-- Quote class of the fallback name pattern: a double or single quote. -/
def quoteCls : RE := .cls (fun c => c = '"' || c = '\'')

/-- Fallback pattern one: a quoted name key, a colon, optional whitespace,
then a quoted run of non-quote characters as the group (re.IGNORECASE). -/
def fallbackNameRE (n : Nat) : RE :=
  .seq quoteCls (.seq (litCI ['n', 'a', 'm', 'e']) (.seq quoteCls (.seq (chP ':')
    (.seq (.rep (.cls isPySpace) 0 n)
      (.seq quoteCls (.seq (.group (.rep (.cls (fun c => !(c = '"' || c = '\''))) 1 n)) quoteCls))))))

/-- Fallback patterns two and three: a case-insensitive keyword, one or more
colon/whitespace characters, then a run free of newlines and commas as the
group. -/
def fallbackKwRE (kw : String) (n : Nat) : RE :=
  .seq (litCI kw.data) (.seq (.rep (.cls (fun c => c = ':' || isPySpace c)) 1 n)
    (.group (.rep (.cls (fun c => !(c = '\n' || c = ','))) 1 n)))

/-- Record built for a fallback hit: the stripped name, confidence 0.5, and
the literal fallback summary. -/
def mkFallbackRec (m : String) : Val :=
  .obj [("name", .str (pyStrip m)), ("confidence_score", .num (mkRat 1 2)),
    ("summary", .str "Extracted via fallback parsing")]

/-- The private helper _fallback_parse: for each of the three name patterns
in order, take the first match whose stripped text is longer than three
characters (the inner loop skips shorter matches and breaks at the first
valid one). -/
def _fallback_parse (response : String) : List Val :=
  let n := response.length
  [fallbackNameRE n, fallbackKwRE "Tournament" n, fallbackKwRE "Championship" n].foldl
    (fun acc p =>
      match (findallGroup1 p response).find? (fun m => 3 < (pyStrip m).length) with
      | some m => acc ++ [mkFallbackRec m]
      | none => acc) []

/-- The llm_response local variable after .strip() and fence cleanup (the
text _fallback_parse later scans). -/
def cleanedResponse (llm_response : String) : String :=
  cleanFences (pyStrip llm_response)

/-- The json_str local variable: bracket slice then syntactic repair. -/
def fixedJsonStr (llm_response : String) : String :=
  _fix_json_string (bracketSlice (cleanedResponse llm_response))

/-- Response handling of extract_tournaments_with_llm after the model call:
strip, remove code fences, slice to the outermost brackets, repair, parse;
on parse failure fall back to the heuristic scan of the fence-cleaned text;
finally a non-list value is kept as a singleton when truthy and dropped when
falsy.  The enclosing try/except returns an empty list when the provider
call itself fails, so this function is the whole deterministic behaviour. -/
def processLLMResponse (llm_response : String) : List Val :=
  match Json.jsonLoads (fixedJsonStr llm_response) with
  | .ok (.arr xs) => xs
  | .ok v => if pyTruthy v then [v] else []
  | .error _ => _fallback_parse (cleanedResponse llm_response)

end Extractor

/-! ## Step 5: database storage (step5_database_storage.py)

The tournaments table is modelled as its column list plus rows of inserted
values; a MySQL error raised by an INSERT (unknown column, unique-key
violation) is caught by the source's except-Error handler, so
insert_tournament reports it as a None id with the table unchanged.
String comparison follows the utf8mb4_unicode_ci collation
(case-insensitive; its trailing-space padding never matters here because no
compared value carries trailing spaces).
-/

namespace Storage

/-- Rendering used where Python applies str() to a field value.  The
pipeline only reaches this with strings (and the None case is handled by
safe_string before calling it); the number rendering is exact for integers
and the container branches serialise like json.dumps rather than Python
repr, a difference no claim exercises. -/
def ratStr (q : ℚ) : String :=
  if q.den = 1 then toString q.num else toString q.num ++ "/" ++ toString q.den

/-- Minimal JSON string escaping: quote, backslash and the three common
control characters (sufficient for every value serialised here). -/
def escapeJson (s : String) : String :=
  String.join (s.data.map (fun c =>
    if c = '"' then "\\\""
    else if c = '\\' then "\\\\"
    else if c = '\n' then "\\n"
    else if c = '\t' then "\\t"
    else if c = '\r' then "\\r"
    else String.mk [c]))

/-- Python json.dumps with default separators, used by insert_tournament on
the array-valued fields. -/
def jsonDumps : Val → String
  | .null => "null"
  | .bool b => if b then "true" else "false"
  | .num q => ratStr q
  | .str s => "\"" ++ escapeJson s ++ "\""
  | .arr xs => "[" ++ String.intercalate ", " (xs.attach.map (fun x => jsonDumps x.1)) ++ "]"
  | .obj fs => "\x7b" ++ String.intercalate ", "
      (fs.attach.map (fun kv => "\"" ++ escapeJson kv.1.1 ++ "\": " ++ jsonDumps kv.1.2)) ++ "\x7d"
decreasing_by
  · have := List.sizeOf_lt_of_mem x.2
    simp_all
    omega
  · rcases kv with ⟨⟨k, v⟩, hm⟩
    have := List.sizeOf_lt_of_mem hm
    simp_all
    omega

/-- Python str() of a value (see ratStr for the caveats). -/
def pyStrVal : Val → String
  | .str s => s
  | .bool b => if b then "True" else "False"
  | .null => "None"
  | .num q => ratStr q
  | v => jsonDumps v

/-- The safe_string helper inside insert_tournament: None becomes the empty
string, anything else is str()-ed and optionally truncated. -/
def safe_string (v : Val) (max_length : Option Nat) : String :=
  match v with
  | .null => ""
  | v =>
    match max_length with
    | some n => pySlice (pyStrVal v) n
    | none => pyStrVal v

/-- Python float() applied to tournament.get('confidence_score', 0.0):
numbers and bools convert, numeric strings parse, non-numeric strings raise
ValueError and other values TypeError — neither exception class is caught
by the except-Error handler of insert_tournament. -/
def pyFloatFn : Val → Except PyErr ℚ
  | .num q => .ok q
  | .bool b => .ok (if b then mkRat 1 1 else mkRat 0 1)
  | .str s =>
    match pyFloatOfString s with
    | some q => .ok q
    | none => .error .valueError
  | _ => .error .typeError

/-- A stored SQL value. -/
inductive SqlVal where
  | s : String → SqlVal
  | null : SqlVal
  | f : ℚ → SqlVal
deriving Repr, DecidableEq

structure Row where
  id : Nat
  vals : List (String × SqlVal)
deriving Repr, DecidableEq

structure Table where
  cols : List String
  rows : List Row
  nextId : Nat
deriving Repr, DecidableEq

/-- Column list of the CREATE TABLE tournaments statement in
create_database_tables (registration_deadline is absent there). -/
def tournamentsTableColumns : List String :=
  ["id", "name", "sport", "level", "date_info", "venue", "link", "streaming_links",
   "summary", "entry_fees", "contact_information", "eligibility", "prizes",
   "confidence_score", "source_url", "source_sport", "source_level",
   "extraction_timestamp", "created_at", "updated_at"]

/-- Column list of the INSERT INTO tournaments statement in
insert_tournament. -/
def insertColumns : List String :=
  ["name", "sport", "level", "date_info", "registration_deadline", "venue", "link",
   "streaming_links", "summary", "entry_fees", "contact_information", "eligibility",
   "prizes", "confidence_score", "source_url", "source_sport", "source_level",
   "extraction_timestamp"]

/-- The freshly created tournaments table. -/
def freshTournamentsTable : Table :=
  { cols := tournamentsTableColumns, rows := [], nextId := 1 }

/-- create_database_tables: CREATE TABLE IF NOT EXISTS, so an existing table
is kept and otherwise the fresh schema is installed. -/
def create_database_tables (existing : Option Table) : Table :=
  existing.getD freshTournamentsTable

/-- Collation-aware string equality (utf8mb4_unicode_ci is
case-insensitive). -/
def sqlEqCI (a b : String) : Bool :=
  pyLower a == pyLower b

/-- Value of a column in a stored row (string view; absent or non-string
columns read as empty, which only unexercised corners can hit). -/
def rowStr (r : Row) (col : String) : String :=
  match r.vals.find? (fun kv => kv.1 == col) with
  | some (_, SqlVal.s v) => v
  | _ => ""

/-- The json.dumps-or-NULL pattern of insert_tournament:
json.dumps(tournament.get(k, [])) if tournament.get(k) else None. -/
def jsonIfTruthy (fs : List (String × Val)) (k : String) : SqlVal :=
  if pyTruthy (dictGet fs k .null) then .s (jsonDumps (dictGet fs k (.arr []))) else .null

/-- The tournament_data tuple of insert_tournament, keyed by the INSERT
columns, inserted for a dict with fields fs; now stands for the
datetime.now() timestamp string.  Note that both sport/level and
source_sport/source_level are read from the record's 'sport' and 'level'
keys. -/
def insertValues (now : String) (fs : List (String × Val)) :
    Except PyErr (List (String × SqlVal)) := do
  let conf ← pyFloatFn (dictGet fs "confidence_score" (.num (mkRat 0 1)))
  .ok [("name", .s (safe_string (dictGet fs "name" (.str "")) (some 255))),
    ("sport", .s (safe_string (dictGet fs "sport" (.str "")) (some 100))),
    ("level", .s (safe_string (dictGet fs "level" (.str "")) (some 100))),
    ("date_info", jsonIfTruthy fs "date"),
    ("registration_deadline", .s (safe_string (dictGet fs "registration_deadline" (.str "")) none)),
    ("venue", jsonIfTruthy fs "venue"),
    ("link", .s (safe_string (dictGet fs "link" (.str "")) (some 500))),
    ("streaming_links", .s (safe_string (dictGet fs "streaming_links" (.str "")) none)),
    ("summary", .s (safe_string (dictGet fs "summary" (.str "")) none)),
    ("entry_fees", .s (safe_string (dictGet fs "entry_fees" (.str "")) none)),
    ("contact_information", jsonIfTruthy fs "contact_information"),
    ("eligibility", jsonIfTruthy fs "eligibility"),
    ("prizes", jsonIfTruthy fs "prizes"),
    ("confidence_score", .f conf),
    ("source_url", .s (safe_string (dictGet fs "source_url" (.str "")) (some 500))),
    ("source_sport", .s (safe_string (dictGet fs "sport" (.str "")) (some 100))),
    ("source_level", .s (safe_string (dictGet fs "level" (.str "")) (some 100))),
    ("extraction_timestamp", .s now)]

/-- Lookup inside a freshly built value tuple. -/
def tupleStr (vals : List (String × SqlVal)) (col : String) : String :=
  match vals.find? (fun kv => kv.1 == col) with
  | some (_, SqlVal.s v) => v
  | _ => ""

/-- insert_tournament: build the value tuple, then execute the INSERT.  An
unknown column in the INSERT list or a unique-key clash on
(name, sport, level) raises a mysql Error that the handler turns into a
None id with no change; otherwise the row is appended and its fresh id
returned.  On a non-dict record the .get calls raise AttributeError, which
the except-Error clause does not catch. -/
def insert_tournament (now : String) (tbl : Table) (t : Val) :
    Except PyErr (Option Nat × Table) :=
  match t with
  | .obj fs => do
    let vals ← insertValues now fs
    if ¬ insertColumns.all (fun c => tbl.cols.contains c) then
      .ok (none, tbl)
    else if tbl.rows.any (fun r =>
        sqlEqCI (rowStr r "name") (tupleStr vals "name") &&
        sqlEqCI (rowStr r "sport") (tupleStr vals "sport") &&
        sqlEqCI (rowStr r "level") (tupleStr vals "level")) then
      .ok (none, tbl)
    else
      .ok (some tbl.nextId,
        { cols := tbl.cols, rows := tbl.rows ++ [{ id := tbl.nextId, vals := vals }],
          nextId := tbl.nextId + 1 })
  | _ => .error .attributeError

/-- Evaluation of tournament.get(k, '')[:n] in check_tournament_exists: a
missing key slices the default empty string; a stored None raises TypeError
(uncaught there).  Other non-string values also error in that call chain —
a corner no pipeline record reaches, since these fields are strings. -/
def getSliced (fs : List (String × Val)) (k : String) (n : Nat) : Except PyErr String :=
  match dictGet fs k (.str "") with
  | .str s => .ok (pySlice s n)
  | _ => .error .typeError

/-- check_tournament_exists: point SELECT comparing the stored name, sport
and level columns against the record's name, source_sport and source_level
fields (not its sport/level fields). -/
def check_tournament_exists (tbl : Table) (t : Val) : Except PyErr (Option Nat) :=
  match t with
  | .obj fs => do
    let nm ← getSliced fs "name" 255
    let sp ← getSliced fs "source_sport" 100
    let lv ← getSliced fs "source_level" 100
    .ok ((tbl.rows.find? (fun r =>
      sqlEqCI (rowStr r "name") nm && sqlEqCI (rowStr r "sport") sp &&
      sqlEqCI (rowStr r "level") lv)).map (·.id))
  | _ => .error .attributeError

structure BatchStats where
  total_processed : Nat
  successful_inserts : Nat
  duplicates_found : Nat
  failed_inserts : Nat
deriving Repr, DecidableEq

/-- Loop body of insert_tournaments_batch: existence check first (a truthy
id counts a duplicate and skips), then insert (a truthy fresh id counts a
success, anything else a failure). -/
def batchAux (now : String) (tbl : Table) :
    List Val → Except PyErr (Nat × Nat × Nat × Table)
  | [] => .ok (0, 0, 0, tbl)
  | t :: rest => do
    let existing ← check_tournament_exists tbl t
    match existing with
    | some i =>
      if i ≠ 0 then do
        let (s, d, f, tbl1) ← batchAux now tbl rest
        .ok (s, d + 1, f, tbl1)
      else do
        let (idOpt, tbl1) ← insert_tournament now tbl t
        let (s, d, f, tbl2) ← batchAux now tbl1 rest
        match idOpt with
        | some j => if j ≠ 0 then .ok (s + 1, d, f, tbl2) else .ok (s, d, f + 1, tbl2)
        | none => .ok (s, d, f + 1, tbl2)
    | none => do
      let (idOpt, tbl1) ← insert_tournament now tbl t
      let (s, d, f, tbl2) ← batchAux now tbl1 rest
      match idOpt with
      | some j => if j ≠ 0 then .ok (s + 1, d, f, tbl2) else .ok (s, d, f + 1, tbl2)
      | none => .ok (s, d, f + 1, tbl2)

/-- insert_tournaments_batch from step5_database_storage.py. -/
def insert_tournaments_batch (now : String) (tbl : Table) (tournaments : List Val) :
    Except PyErr (BatchStats × Table) := do
  let (s, d, f, tbl1) ← batchAux now tbl tournaments
  .ok ({ total_processed := tournaments.length, successful_inserts := s,
         duplicates_found := d, failed_inserts := f }, tbl1)

end Storage

/-! ## Concrete inputs and statement helpers used by the claims -/

/-- Field lookup on an extracted record (None on a non-dict). -/
def getField (t : Val) (k : String) : Option Val :=
  match t with
  | .obj fs => dictGet? fs k
  | _ => none

/-- A fixed wall-clock string standing for datetime.now() in the storage
runs (no claim reads it back). -/
def now0 : String := "2025-08-16 00:00:00"

/-- The spec's storage example record: name State Cricket Cup, sport
Cricket, level State. -/
def sampleRecord : Val :=
  .obj [("name", .str "State Cricket Cup"), ("sport", .str "Cricket"),
    ("level", .str "State")]

/-- The fresh tournaments table schema as ensureSchema creates it. -/
def freshDb : Storage.Table := Storage.create_database_tables none

/-- The fresh schema with the missing registration_deadline column added,
used to show the duplicate-detection behaviour independently of the schema
defect. -/
def patchedDb : Storage.Table :=
  { freshDb with cols := freshDb.cols ++ ["registration_deadline"] }

/-- The end-to-end scenario page text of the spec. -/
def c4content : String := "Tournament: Sep 2025, Venue: Mumbai Stadium, Entry fee ₹500"

/-- The malformed model output of the spec's extractor test. -/
def malformedJson : String := "[\x7b\"name\": \"X\", ]"

/-- Query pair of the dedup example. -/
def cricketQ1 : Query :=
  { sport := "Cricket", level := "State", query := "Cricket Tournament",
    source := "template", template_type := "regular" }

def cricketQ2 : Query :=
  { sport := "Cricket", level := "State", query := "cricket tournament ",
    source := "template", template_type := "regular" }

/-- Forget the priority rank of a search result (prioritize_results writes
that field, so statements about order compare rank-cleared results). -/
def clearRank (r : SearchResult) : SearchResult :=
  { r with priority_rank := none }

/-- Two search results with equal relevance and position but different
links, for the stability witness. -/
def srA : SearchResult :=
  { sport := "Cricket", level := "State", query := "q", title := "A tournament",
    link := "http://a.test", snippet := "", position := some 1,
    relevance_score := some (mkRat 2 1), priority_rank := none }

def srB : SearchResult :=
  { sport := "Cricket", level := "State", query := "q", title := "B tournament",
    link := "http://b.test", snippet := "", position := some 1,
    relevance_score := some (mkRat 2 1), priority_rank := none }

/-- Search context dict used in the extractor claims. -/
def c3sc : List (String × Val) :=
  [("sport", .str "Cricket"), ("level", .str "State"),
   ("original_query", .str "cricket tournament query")]

/-- A record whose name is the placeholder N/A, as the model may well emit:
enhance normalises the name to None, after which validate crashes. -/
def c3raw : Val :=
  .obj [("name", .str "N/A"), ("tournament_date", .str "Sep 2025"),
    ("confidence_score", .num (mkRat 9 10))]

/-- A well-formed record that flows through the whole extraction stage. -/
def c10raw : Val :=
  .obj [("name", .str "State Cricket Cup"), ("tournament_date", .str "Sep 2025"),
    ("confidence_score", .num (mkRat 9 10))]

/-! ## Supporting lemmas -/

theorem blt_true_iff (a b : ℚ) : Rat.blt a b = true ↔ a < b :=
  Iff.rfl

theorem blt_false_iff (a b : ℚ) : Rat.blt a b = false ↔ b ≤ a :=
  Iff.rfl

theorem mkRat_zero_eq : mkRat 0 1 = (0 : ℚ) := by
  norm_num [Rat.mkRat_eq_div]

theorem mkRat_one_eq : mkRat 1 1 = (1 : ℚ) := by
  norm_num [Rat.mkRat_eq_div]

theorem clamp01_bounds (q : ℚ) :
    mkRat 0 1 ≤ Extractor.clamp01 q ∧ Extractor.clamp01 q ≤ mkRat 1 1 := by
  unfold Extractor.clamp01 pyMin pyMax
  by_cases h1 : Rat.blt q (mkRat 0 1)
  · rw [if_pos h1]
    rw [show Rat.blt (mkRat 1 1) (mkRat 0 1) = false from rfl]
    exact ⟨le_refl _, by rw [mkRat_zero_eq, mkRat_one_eq]; norm_num⟩
  · have h1' : mkRat 0 1 ≤ q := blt_false_iff _ _ |>.mp (Bool.not_eq_true _ |>.mp h1)
    rw [if_neg h1]
    by_cases h2 : Rat.blt (mkRat 1 1) q
    · rw [if_pos h2]
      exact ⟨by rw [mkRat_zero_eq, mkRat_one_eq]; norm_num, le_refl _⟩
    · have h2' : q ≤ mkRat 1 1 := blt_false_iff _ _ |>.mp (Bool.not_eq_true _ |>.mp h2)
      rw [if_neg h2]
      exact ⟨h1', h2'⟩

theorem dictGet?_cons_hit (kv : String × Val) (rest : List (String × Val)) (k : String)
    (h : (kv.1 == k) = true) : dictGet? (kv :: rest) k = some kv.2 := by
  simp [dictGet?, h]

theorem dictGet?_cons_miss (kv : String × Val) (rest : List (String × Val)) (k : String)
    (h : (kv.1 == k) = false) : dictGet? (kv :: rest) k = dictGet? rest k := by
  simp [dictGet?, h]

theorem dictGet?_append (l1 l2 : List (String × Val)) (k : String) :
    dictGet? (l1 ++ l2) k = ((dictGet? l1 k).orElse (fun _ => dictGet? l2 k)) := by
  induction l1 with
  | nil => simp [dictGet?]
  | cons kv rest ih =>
    by_cases hk : kv.1 == k
    · simp [dictGet?, hk]
    · simp [dictGet?, hk, ih]

theorem dictGet?_set_self (l : List (String × Val)) (k : String) (v : Val) :
    dictGet? (dictSet l k v) k = some v := by
  unfold dictSet
  by_cases h : l.any (fun kv => kv.1 == k)
  · rw [if_pos h]
    induction l with
    | nil => simp at h
    | cons kv rest ih =>
      by_cases hk : kv.1 == k
      · simp [dictGet?, hk]
      · simp only [List.any_cons, hk, Bool.false_or] at h
        simp only [List.map_cons, if_neg hk]
        rw [show dictGet? (kv :: List.map (fun kv => if kv.1 == k then (k, v) else kv) rest) k
            = dictGet? (List.map (fun kv => if kv.1 == k then (k, v) else kv) rest) k by
          simp [dictGet?, hk]]
        exact ih h
  · rw [if_neg h]
    rw [dictGet?_append]
    have hnone : dictGet? l k = none := by
      induction l with
      | nil => rfl
      | cons kv rest ih =>
        simp only [List.any_cons, Bool.or_eq_true, not_or] at h
        simp [dictGet?, Bool.not_eq_true _ |>.mp h.1, ih (by simpa using h.2)]
    simp [hnone, dictGet?]

theorem dictGet?_mapSet_ne (l : List (String × Val)) (k k' : String) (v : Val)
    (h : k' ≠ k) :
    dictGet? (l.map (fun kv => if kv.1 == k then (k, v) else kv)) k' = dictGet? l k' := by
  have hne : (k == k') = false := by simpa using (Ne.symm h)
  induction l with
  | nil => simp [dictGet?]
  | cons kv rest ih =>
    by_cases hk : (kv.1 == k) = true
    · have hkv : (kv.1 == k') = false := by
        have hkk : kv.1 = k := by simpa using hk
        simpa [hkk] using (Ne.symm h)
      rw [List.map_cons, if_pos hk, dictGet?_cons_miss _ _ _ hne,
        dictGet?_cons_miss _ _ _ hkv]
      exact ih
    · have hk' : (kv.1 == k) = false := Bool.not_eq_true _ |>.mp hk
      rw [List.map_cons, if_neg hk]
      by_cases hkv : (kv.1 == k') = true
      · rw [dictGet?_cons_hit _ _ _ hkv, dictGet?_cons_hit _ _ _ hkv]
      · have hkv' : (kv.1 == k') = false := Bool.not_eq_true _ |>.mp hkv
        rw [dictGet?_cons_miss _ _ _ hkv', dictGet?_cons_miss _ _ _ hkv']
        exact ih

theorem dictGet?_set_ne (l : List (String × Val)) (k k' : String) (v : Val)
    (h : k' ≠ k) : dictGet? (dictSet l k v) k' = dictGet? l k' := by
  have hne : (k == k') = false := by simpa using (Ne.symm h)
  unfold dictSet
  by_cases ha : l.any (fun kv => kv.1 == k)
  · rw [if_pos ha]
    exact dictGet?_mapSet_ne l k k' v h
  · rw [if_neg ha]
    rw [dictGet?_append]
    by_cases hl : (dictGet? l k').isSome
    · obtain ⟨w, hw⟩ := Option.isSome_iff_exists.mp hl
      simp [hw]
    · rw [Option.not_isSome_iff_eq_none] at hl
      simp [hl, dictGet?, hne]

theorem dictGet?_pop_ne (l : List (String × Val)) (k k' : String) (h : k' ≠ k) :
    dictGet? (dictPop l k) k' = dictGet? l k' := by
  unfold dictPop
  induction l with
  | nil => simp [dictGet?]
  | cons kv rest ih =>
    by_cases hk : kv.1 == k
    · have hkv : (kv.1 == k') = false := by
        have hkk : kv.1 = k := by simpa using hk
        simpa [hkk] using (Ne.symm h)
      have : (kv.1 != k) = false := by simp [bne, hk]
      simp [List.filter, this, dictGet?, hkv, ih]
    · have : (kv.1 != k) = true := by simp [bne, hk]
      by_cases hkv : kv.1 == k'
      · simp [List.filter, this, dictGet?, hkv]
      · simp [List.filter, this, dictGet?, hkv, ih]

theorem dictGet?_mapVals (g : Val → Val) (l : List (String × Val)) (k : String) :
    dictGet? (l.map (fun kv => (kv.1, g kv.2))) k = (dictGet? l k).map g := by
  induction l with
  | nil => simp [dictGet?]
  | cons kv rest ih =>
    by_cases hkv : kv.1 == k
    · simp [dictGet?, hkv]
    · simp [dictGet?, hkv, ih]

theorem stampContext_conf (sc fs : List (String × Val)) :
    dictGet? (Extractor.stampContext sc fs) "confidence_score" =
      dictGet? fs "confidence_score" := by
  unfold Extractor.stampContext
  rw [dictGet?_set_ne _ _ _ _ (by decide), dictGet?_set_ne _ _ _ _ (by decide),
    dictGet?_set_ne _ _ _ _ (by decide), dictGet?_set_ne _ _ _ _ (by decide),
    dictGet?_set_ne _ _ _ _ (by decide)]
  unfold Extractor.renameTournamentDate
  by_cases h : fs.any (fun kv => kv.1 == "tournament_date")
  · rw [if_pos h, dictGet?_set_ne _ _ _ _ (by decide), dictGet?_pop_ne _ _ _ (by decide)]
  · rw [if_neg h]

theorem confFrom_stamp (sc fs : List (String × Val)) :
    Extractor.confFrom (Extractor.stampContext sc fs) =
      (match (dictGet? fs "confidence_score").getD (.num (mkRat 0 1)) with
       | .str s => Except.ok ((pyFloatOfString s).getD (mkRat 1 2))
       | v => Extractor.valToNum v) := by
  unfold Extractor.confFrom dictGet
  rw [stampContext_conf]

theorem enhanceOne_ok_of_conf (sc fs : List (String × Val)) (q : ℚ)
    (h : Extractor.confFrom (Extractor.stampContext sc fs) = .ok q) :
    Extractor.enhanceOne sc (.obj fs) =
      .ok (.obj (Extractor.clearPlaceholders (dictSet (Extractor.stampContext sc fs)
        "confidence_score" (.num (Extractor.clamp01 q))))) := by
  simp only [Extractor.enhanceOne]
  rw [h]

theorem enhanceOne_err_of_conf (sc fs : List (String × Val)) (e : PyErr)
    (h : Extractor.confFrom (Extractor.stampContext sc fs) = .error e) :
    Extractor.enhanceOne sc (.obj fs) = .error e := by
  simp only [Extractor.enhanceOne]
  rw [h]

theorem enhanceOne_out_conf (sc fs : List (String × Val)) (q : ℚ)
    (h : Extractor.confFrom (Extractor.stampContext sc fs) = .ok q) :
    ∃ gs, Extractor.enhanceOne sc (.obj fs) = .ok (.obj gs) ∧
      dictGet? gs "confidence_score" = some (.num (Extractor.clamp01 q)) := by
  refine ⟨_, enhanceOne_ok_of_conf sc fs q h, ?_⟩
  unfold Extractor.clearPlaceholders
  rw [dictGet?_mapVals Extractor.placeholderToNull, dictGet?_set_self]
  rfl

theorem enhanceOne_ok_shape (sc : List (String × Val)) (t t' : Val)
    (h : Extractor.enhanceOne sc t = .ok t') :
    ∃ gs q, t' = .obj gs ∧
      dictGet? gs "confidence_score" = some (.num (Extractor.clamp01 q)) := by
  cases t with
  | obj fs =>
    cases hc : Extractor.confFrom (Extractor.stampContext sc fs) with
    | error e => rw [enhanceOne_err_of_conf sc fs e hc] at h; cases h
    | ok q =>
      obtain ⟨gs, h1, h2⟩ := enhanceOne_out_conf sc fs q hc
      rw [h1] at h
      injection h with h
      exact ⟨gs, q, h.symm, h2⟩
  | null => simp [Extractor.enhanceOne] at h
  | bool b => simp [Extractor.enhanceOne] at h
  | num q => simp [Extractor.enhanceOne] at h
  | str s => simp [Extractor.enhanceOne] at h
  | arr xs => simp [Extractor.enhanceOne] at h

theorem enhance_ok_mem (sc : List (String × Val)) :
    ∀ raw es, Extractor.enhance_tournament_data sc raw = .ok es →
      ∀ t ∈ es, ∃ t0, t0 ∈ raw ∧ Extractor.enhanceOne sc t0 = .ok t := by
  intro raw
  induction raw with
  | nil =>
    intro es h t ht
    cases h
    simp at ht
  | cons t0 rest ih =>
    intro es h t ht
    simp only [Extractor.enhance_tournament_data] at h
    cases h1 : Extractor.enhanceOne sc t0 with
    | error e => rw [h1] at h; cases h
    | ok t' =>
      rw [h1] at h
      cases h2 : Extractor.enhance_tournament_data sc rest with
      | error e => rw [h2] at h; cases h
      | ok rest' =>
        rw [h2] at h
        cases h
        rcases List.mem_cons.mp ht with h3 | h3
        · exact ⟨t0, List.mem_cons_self _ _, by rw [h1, h3]⟩
        · obtain ⟨t1, hm, he⟩ := ih rest' h2 t h3
          exact ⟨t1, List.mem_cons_of_mem _ hm, he⟩

theorem filter_ok_mem :
    ∀ es kept, Extractor.filter_by_confidence es = .ok kept →
      ∀ t ∈ kept, t ∈ es ∧ Extractor.confAtLeastMin t = .ok true := by
  intro es
  induction es with
  | nil =>
    intro kept h t ht
    cases h
    simp at ht
  | cons t0 rest ih =>
    intro kept h t ht
    simp only [Extractor.filter_by_confidence] at h
    cases h1 : Extractor.confAtLeastMin t0 with
    | error e => rw [h1] at h; cases h
    | ok keep =>
      rw [h1] at h
      cases h2 : Extractor.filter_by_confidence rest with
      | error e => rw [h2] at h; cases h
      | ok rest' =>
        rw [h2] at h
        cases keep with
        | true =>
          cases h
          rcases List.mem_cons.mp ht with h3 | h3
          · subst h3; exact ⟨List.mem_cons_self _ _, h1⟩
          · obtain ⟨hm, hc⟩ := ih rest' h2 t h3
            exact ⟨List.mem_cons_of_mem _ hm, hc⟩
        | false =>
          cases h
          obtain ⟨hm, hc⟩ := ih rest' h2 t ht
          exact ⟨List.mem_cons_of_mem _ hm, hc⟩

theorem validate_ok_mem :
    ∀ ts out, Extractor.validate_tournament_data ts = .ok out →
      ∀ t ∈ out, ∃ t0, t0 ∈ ts ∧ Extractor.validateOne t0 = .ok (some t) := by
  intro ts
  induction ts with
  | nil =>
    intro out h t ht
    cases h
    simp at ht
  | cons t0 rest ih =>
    intro out h t ht
    simp only [Extractor.validate_tournament_data] at h
    cases h1 : Extractor.validateOne t0 with
    | error e => rw [h1] at h; cases h
    | ok kept =>
      rw [h1] at h
      cases h2 : Extractor.validate_tournament_data rest with
      | error e => rw [h2] at h; cases h
      | ok rest' =>
        rw [h2] at h
        cases kept with
        | some c =>
          cases h
          rcases List.mem_cons.mp ht with h3 | h3
          · subst h3; exact ⟨t0, List.mem_cons_self _ _, h1⟩
          · obtain ⟨t1, hm, he⟩ := ih rest' h2 t h3
            exact ⟨t1, List.mem_cons_of_mem _ hm, he⟩
        | none =>
          cases h
          obtain ⟨t1, hm, he⟩ := ih rest' h2 t ht
          exact ⟨t1, List.mem_cons_of_mem _ hm, he⟩

theorem validateOne_some_shape (t0 c : Val)
    (h : Extractor.validateOne t0 = .ok (some c)) :
    ∃ fs, t0 = .obj fs ∧ c = Extractor.cleanTournament (.obj fs) := by
  cases t0 with
  | obj fs =>
    refine ⟨fs, rfl, ?_⟩
    simp only [Extractor.validateOne] at h
    split at h
    · cases h
    · split at h
      · cases h
      · split at h
        · cases h
        · split at h
          · injection h with h
            injection h with h
            exact h.symm
          · cases h
  | null => simp [Extractor.validateOne] at h
  | bool b => simp [Extractor.validateOne] at h
  | num q => simp [Extractor.validateOne] at h
  | str s => simp [Extractor.validateOne] at h
  | arr xs => simp [Extractor.validateOne] at h

theorem cleanTournament_preserves_num (fs : List (String × Val)) (k : String) (q : ℚ)
    (h : dictGet? fs k = some (.num q)) :
    ∃ gs, Extractor.cleanTournament (.obj fs) = .obj gs ∧
      dictGet? gs k = some (.num q) := by
  have h0 : Extractor.cleanTournament (.obj fs) =
      .obj (fs.map (fun kv => (kv.1, Extractor.cleanVal kv.2))) := rfl
  refine ⟨_, h0, ?_⟩
  rw [dictGet?_mapVals Extractor.cleanVal, h]
  rfl

theorem confAtLeastMin_true (gs : List (String × Val)) (q : ℚ)
    (hq : dictGet? gs "confidence_score" = some (.num q))
    (h : Extractor.confAtLeastMin (.obj gs) = .ok true) : mkRat 7 10 ≤ q := by
  simp only [Extractor.confAtLeastMin, dictGet] at h
  rw [hq] at h
  injection h with h
  exact of_decide_eq_true h

theorem fallback_foldl_elems (resp : String) (ps : List Rex.RE) :
    ∀ acc, (∀ t ∈ acc, ∃ m, t = Extractor.mkFallbackRec m) →
      ∀ t ∈ ps.foldl (fun acc p =>
          match (Rex.findallGroup1 p resp).find? (fun m => 3 < (pyStrip m).length) with
          | some m => acc ++ [Extractor.mkFallbackRec m]
          | none => acc) acc,
        ∃ m, t = Extractor.mkFallbackRec m := by
  induction ps with
  | nil => intro acc hacc t ht; exact hacc t ht
  | cons p rest ih =>
    intro acc hacc t ht
    rw [List.foldl_cons] at ht
    refine ih _ ?_ t ht
    intro x hx
    cases hf : (Rex.findallGroup1 p resp).find? (fun m => 3 < (pyStrip m).length) with
    | some m =>
      rw [hf] at hx
      rcases List.mem_append.mp hx with h1 | h1
      · exact hacc x h1
      · exact ⟨m, by simpa using h1⟩
    | none =>
      rw [hf] at hx
      exact hacc x hx

theorem fallback_elems (resp : String) :
    ∀ t ∈ Extractor._fallback_parse resp, ∃ m, t = Extractor.mkFallbackRec m := by
  intro t ht
  unfold Extractor._fallback_parse at ht
  exact fallback_foldl_elems resp _ [] (by simp) t ht

theorem enhance_fallbackRec (sc : List (String × Val)) (m : String) :
    ∃ gs, Extractor.enhanceOne sc (Extractor.mkFallbackRec m) = .ok (.obj gs) ∧
      dictGet? gs "confidence_score" = some (.num (mkRat 1 2)) := by
  have hq : Extractor.confFrom (Extractor.stampContext sc
      [("name", Val.str (pyStrip m)), ("confidence_score", Val.num (mkRat 1 2)),
       ("summary", Val.str "Extracted via fallback parsing")]) = .ok (mkRat 1 2) := by
    rw [confFrom_stamp]
    rfl
  obtain ⟨gs, h1, h2⟩ := enhanceOne_out_conf sc _ _ hq
  exact ⟨gs, h1, by rw [h2]; rfl⟩

theorem filter_drops_half (gs : List (String × Val))
    (h : dictGet? gs "confidence_score" = some (.num (mkRat 1 2))) :
    Extractor.confAtLeastMin (.obj gs) = .ok false := by
  simp only [Extractor.confAtLeastMin, dictGet]
  rw [h]
  rfl

theorem fallback_enhance_filter_empty (sc : List (String × Val)) (resp : String) :
    ∃ es, Extractor.enhance_tournament_data sc (Extractor._fallback_parse resp) = .ok es ∧
      Extractor.filter_by_confidence es = .ok [] := by
  suffices h : ∀ ts : List Val, (∀ t ∈ ts, ∃ m, t = Extractor.mkFallbackRec m) →
      ∃ es, Extractor.enhance_tournament_data sc ts = .ok es ∧
        Extractor.filter_by_confidence es = .ok [] by
    exact h _ (fallback_elems resp)
  intro ts
  induction ts with
  | nil => exact fun _ => ⟨[], rfl, rfl⟩
  | cons t rest ih =>
    intro hall
    obtain ⟨m, rfl⟩ := hall t (List.mem_cons_self _ _)
    obtain ⟨es, hes, hfil⟩ := ih (fun x hx => hall x (List.mem_cons_of_mem _ hx))
    obtain ⟨gs, he1, he2⟩ := enhance_fallbackRec sc m
    refine ⟨.obj gs :: es, ?_, ?_⟩
    · simp only [Extractor.enhance_tournament_data]
      rw [he1, hes]
    · simp only [Extractor.filter_by_confidence]
      rw [filter_drops_half gs he2, hfil]
      rfl

theorem removeDupsAux_idem (xs : List Query) :
    ∀ seen, removeDupsAux seen (removeDupsAux seen xs) = removeDupsAux seen xs := by
  induction xs with
  | nil => intro seen; rfl
  | cons q rest ih =>
    intro seen
    by_cases h : queryKey q ∈ seen
    · simp only [removeDupsAux, if_pos h]
      exact ih seen
    · have hA : removeDupsAux seen (q :: rest) =
          q :: removeDupsAux (queryKey q :: seen) rest := by
        simp only [removeDupsAux, if_neg h]
      rw [hA]
      have hB : removeDupsAux seen (q :: removeDupsAux (queryKey q :: seen) rest) =
          q :: removeDupsAux (queryKey q :: seen)
            (removeDupsAux (queryKey q :: seen) rest) := by
        simp only [removeDupsAux, if_neg h]
      rw [hB, ih (queryKey q :: seen)]

theorem removeDupsAux_sublist (xs : List Query) :
    ∀ seen, List.Sublist (removeDupsAux seen xs) xs := by
  induction xs with
  | nil => intro seen; exact List.Sublist.refl _
  | cons q rest ih =>
    intro seen
    by_cases h : queryKey q ∈ seen
    · simp only [removeDupsAux, if_pos h]
      exact (ih seen).cons q
    · simp only [removeDupsAux, if_neg h]
      exact (ih (queryKey q :: seen)).cons₂ q

theorem removeDupsAux_covers (xs : List Query) :
    ∀ seen q, q ∈ xs → queryKey q ∈ seen ∨
      ∃ q', q' ∈ removeDupsAux seen xs ∧ queryKey q' = queryKey q := by
  induction xs with
  | nil => intro seen q hq; simp at hq
  | cons q0 rest ih =>
    intro seen q hq
    by_cases h0 : queryKey q0 ∈ seen
    · rcases List.mem_cons.mp hq with h1 | h1
      · subst h1
        exact Or.inl h0
      · rcases ih seen q h1 with h2 | ⟨q', hm, hk⟩
        · exact Or.inl h2
        · refine Or.inr ⟨q', ?_, hk⟩
          simpa [removeDupsAux, if_pos h0] using hm
    · rcases List.mem_cons.mp hq with h1 | h1
      · subst h1
        refine Or.inr ⟨q, ?_, rfl⟩
        simp [removeDupsAux, if_neg h0]
      · rcases ih (queryKey q0 :: seen) q h1 with h2 | ⟨q', hm, hk⟩
        · rcases List.mem_cons.mp h2 with h3 | h3
          · refine Or.inr ⟨q0, ?_, h3.symm⟩
            simp [removeDupsAux, if_neg h0]
          · exact Or.inl h3
        · refine Or.inr ⟨q', ?_, hk⟩
          simp only [removeDupsAux, if_neg h0]
          exact List.mem_cons_of_mem _ hm

theorem removeDupsAux_first (xs : List Query) :
    ∀ seen q, q ∈ removeDupsAux seen xs →
      queryKey q ∉ seen ∧
        xs.find? (fun p => queryKey p == queryKey q) = some q := by
  induction xs with
  | nil => intro seen q hq; simp [removeDupsAux] at hq
  | cons q0 rest ih =>
    intro seen q hq
    by_cases h0 : queryKey q0 ∈ seen
    · rw [show removeDupsAux seen (q0 :: rest) = removeDupsAux seen rest by
        simp [removeDupsAux, if_pos h0]] at hq
      obtain ⟨hnot, hfind⟩ := ih seen q hq
      have hne : (queryKey q0 == queryKey q) = false := by
        by_contra hcon
        have : queryKey q0 = queryKey q := by
          simpa using Bool.not_eq_false _ |>.mp hcon
        exact hnot (this ▸ h0)
      refine ⟨hnot, ?_⟩
      rw [List.find?_cons_of_neg _ (by simp [hne]), hfind]
    · rw [show removeDupsAux seen (q0 :: rest) =
          q0 :: removeDupsAux (queryKey q0 :: seen) rest by
        simp [removeDupsAux, if_neg h0]] at hq
      rcases List.mem_cons.mp hq with h1 | h1
      · subst h1
        exact ⟨h0, by rw [List.find?_cons_of_pos _ (by simp)]⟩
      · obtain ⟨hnot, hfind⟩ := ih (queryKey q0 :: seen) q h1
        have hne0 : queryKey q ≠ queryKey q0 := by
          intro hcon
          exact hnot (by rw [hcon]; exact List.mem_cons_self _ _)
        have hnotseen : queryKey q ∉ seen := fun hc => hnot (List.mem_cons_of_mem _ hc)
        refine ⟨hnotseen, ?_⟩
        rw [List.find?_cons_of_neg _ (by simp [Ne.symm hne0]), hfind]

theorem removeDupsAux_keys_nodup (xs : List Query) :
    ∀ seen, ((removeDupsAux seen xs).map queryKey).Nodup := by
  induction xs with
  | nil => intro seen; simp [removeDupsAux]
  | cons q0 rest ih =>
    intro seen
    by_cases h0 : queryKey q0 ∈ seen
    · simpa [removeDupsAux, if_pos h0] using ih seen
    · rw [show removeDupsAux seen (q0 :: rest) =
          q0 :: removeDupsAux (queryKey q0 :: seen) rest by
        simp [removeDupsAux, if_neg h0]]
      rw [List.map_cons]
      refine List.nodup_cons.mpr ⟨?_, ih (queryKey q0 :: seen)⟩
      intro hmem
      obtain ⟨q', hq', hk⟩ := List.mem_map.mp hmem
      obtain ⟨hnot, _⟩ := removeDupsAux_first rest (queryKey q0 :: seen) q' hq'
      exact hnot (by rw [hk]; exact List.mem_cons_self _ _)

theorem srLE_iff (a b : SearchResult) :
    srLE a b = true ↔ ((srKey a).1 < (srKey b).1 ∨
      ((srKey a).1 = (srKey b).1 ∧ (srKey a).2 ≤ (srKey b).2)) := by
  unfold srLE
  simp only [Bool.or_eq_true, Bool.and_eq_true, beq_iff_eq, decide_eq_true_eq]
  exact or_congr (blt_true_iff _ _) Iff.rfl

theorem srLE_trans : ∀ a b c : SearchResult,
    srLE a b = true → srLE b c = true → srLE a c = true := by
  intro a b c h1 h2
  rw [srLE_iff] at h1 h2 ⊢
  rcases h1 with h1 | ⟨e1, p1⟩ <;> rcases h2 with h2 | ⟨e2, p2⟩
  · exact Or.inl (lt_trans h1 h2)
  · exact Or.inl (e2 ▸ h1)
  · exact Or.inl (e1 ▸ h2)
  · exact Or.inr ⟨e1.trans e2, le_trans p1 p2⟩

theorem srLE_total : ∀ a b : SearchResult, (srLE a b || srLE b a) = true := by
  intro a b
  rw [Bool.or_eq_true, srLE_iff, srLE_iff]
  rcases lt_trichotomy (srKey a).1 (srKey b).1 with h | h | h
  · exact Or.inl (Or.inl h)
  · rcases le_total (srKey a).2 (srKey b).2 with hp | hp
    · exact Or.inl (Or.inr ⟨h, hp⟩)
    · exact Or.inr (Or.inr ⟨h.symm, hp⟩)
  · exact Or.inr (Or.inl h)

theorem srLE_refl_of_key_eq (a b : SearchResult) (h : srKey a = srKey b) :
    srLE a b = true := by
  rw [srLE_iff]
  exact Or.inr ⟨congrArg Prod.fst h, le_of_eq (congrArg Prod.snd h)⟩

theorem assignRanks_map_clearRank :
    ∀ (l : List SearchResult) (n : Nat),
      (assignRanks n l).map clearRank = l.map clearRank := by
  intro l
  induction l with
  | nil => intro n; rfl
  | cons r t ih =>
    intro n
    simp only [assignRanks, List.map_cons, ih]
    rfl

theorem assignRanks_length : ∀ (l : List SearchResult) (n : Nat),
    (assignRanks n l).length = l.length := by
  intro l
  induction l with
  | nil => intro n; rfl
  | cons r t ih => intro n; simp [assignRanks, ih]

theorem assignRanks_get_rank :
    ∀ (l : List SearchResult) (n i : Nat) (h : i < (assignRanks n l).length),
      ((assignRanks n l).get ⟨i, h⟩).priority_rank = some (n + i + 1) := by
  intro l
  induction l with
  | nil => intro n i h; simp [assignRanks] at h
  | cons r t ih =>
    intro n i h
    cases i with
    | zero => simp [assignRanks]
    | succ m =>
      have hm : m < (assignRanks (n + 1) t).length := by
        simpa [assignRanks] using Nat.lt_of_succ_lt_succ (by simpa [assignRanks] using h)
      have := ih (n + 1) m hm
      simp only [assignRanks, List.get_cons_succ]
      rw [this]
      congr 1
      omega

theorem mem_assignRanks : ∀ (l : List SearchResult) (n : Nat) (b : SearchResult),
    b ∈ assignRanks n l →
      ∃ a ∈ l, ∃ m, b = { a with priority_rank := some m } := by
  intro l
  induction l with
  | nil => intro n b hb; simp [assignRanks] at hb
  | cons r t ih =>
    intro n b hb
    rcases List.mem_cons.mp (by simpa [assignRanks] using hb) with h1 | h1
    · exact ⟨r, List.mem_cons_self _ _, n + 1, h1⟩
    · obtain ⟨a, ha, m, hm⟩ := ih (n + 1) b h1
      exact ⟨a, List.mem_cons_of_mem _ ha, m, hm⟩

theorem assignRanks_pairwise (l : List SearchResult) (n : Nat)
    (h : l.Pairwise (fun a b => srLE a b = true)) :
    (assignRanks n l).Pairwise (fun a b => srLE a b = true) := by
  induction l generalizing n with
  | nil => simp [assignRanks]
  | cons r t ih =>
    obtain ⟨h1, h2⟩ := List.pairwise_cons.mp h
    simp only [assignRanks]
    refine List.pairwise_cons.mpr ⟨?_, ih (n + 1) h2⟩
    intro b hb
    obtain ⟨a, ha, m, rfl⟩ := mem_assignRanks t (n + 1) b hb
    exact h1 a ha

theorem prioritize_length (rs : List SearchResult) :
    (prioritize_results rs).length = rs.length := by
  unfold prioritize_results
  rw [assignRanks_length, List.length_mergeSort]

theorem getD_mem_of_lt (l : List Val) (n : Nat) (d : Val) (h : n < l.length) :
    l.getD n d ∈ l := by
  induction l generalizing n with
  | nil => simp at h
  | cons a t ih =>
    cases n with
    | zero => simp [List.getD]
    | succ m =>
      have := ih m (by simpa using h)
      simpa [List.getD] using List.mem_cons_of_mem a (by simpa [List.getD] using this)

theorem pyListSet_foldl_nodup (xs : List String) :
    ∀ acc : List String, acc.Nodup →
      (xs.foldl (fun acc x => if x ∈ acc then acc else acc ++ [x]) acc).Nodup := by
  induction xs with
  | nil => intro acc h; simpa using h
  | cons x rest ih =>
    intro acc h
    by_cases hx : x ∈ acc
    · simpa [hx] using ih acc h
    · have : (acc ++ [x]).Nodup := by
        simp [List.nodup_append, h, hx]
      simpa [hx] using ih (acc ++ [x]) this

theorem pyListSet_nodup (xs : List String) : (Scraper.pyListSet xs).Nodup :=
  pyListSet_foldl_nodup xs [] List.nodup_nil

/-! ## Claim theorems -/

/-- C1: the claim says inserting the same (name, sport, level) record twice
through the batch insert leaves exactly one stored row and counts the second
call as a duplicate.  Against the schema that create_database_tables builds,
both calls fail (the INSERT names the column registration_deadline that the
CREATE TABLE omits), zero rows are stored, and the second call counts a
failure, never a duplicate; even with that column patched into the schema,
the second call hits the unique key (the existence check compares the
record's source_sport/source_level against the stored sport/level written
from its sport/level) and is counted as a failure, not a duplicate. -/
theorem storage_batch_insert_twice_fails_not_duplicate :
    Storage.insert_tournaments_batch now0 freshDb [sampleRecord] =
      .ok ({ total_processed := 1, successful_inserts := 0, duplicates_found := 0,
             failed_inserts := 1 }, freshDb) ∧
    freshDb.rows.length = 0 ∧
    (Storage.insert_tournaments_batch now0 patchedDb [sampleRecord]).map
        (fun p => (p.1, p.2.rows.length)) =
      .ok ({ total_processed := 1, successful_inserts := 1, duplicates_found := 0,
             failed_inserts := 0 }, 1) ∧
    ((Storage.insert_tournaments_batch now0 patchedDb [sampleRecord]).bind
        (fun p => Storage.insert_tournaments_batch now0 p.2 [sampleRecord])).map
        (fun p => (p.1, p.2.rows.length)) =
      .ok ({ total_processed := 1, successful_inserts := 0, duplicates_found := 0,
             failed_inserts := 1 }, 1) :=
  ⟨rfl, rfl, rfl, rfl⟩

/-- C2: the claim says the created schema has every column insert_tournament
writes, so a fresh insert succeeds.  In fact the INSERT lists
registration_deadline, the CREATE TABLE does not define it, and inserting a
new record against the fresh schema errors: it returns no id, stores no
row, and the batch counts it as a failed insert. -/
theorem storage_schema_misses_insert_column :
    "registration_deadline" ∈ Storage.insertColumns ∧
    "registration_deadline" ∉ Storage.tournamentsTableColumns ∧
    Storage.insert_tournament now0 freshDb sampleRecord = .ok (none, freshDb) ∧
    Storage.insert_tournaments_batch now0 freshDb [sampleRecord] =
      .ok ({ total_processed := 1, successful_inserts := 0, duplicates_found := 0,
             failed_inserts := 1 }, freshDb) :=
  ⟨by decide, by decide, rfl, rfl⟩

/-- C3: the claim says validate silently drops records whose name, date or
venue is the absence marker None.  enhance does normalise the placeholder
name N/A to None, but validate then evaluates None.strip() and raises
AttributeError instead of dropping the record, so the extraction chain
errors out on such a record. -/
theorem validate_raises_on_placeholder_name :
    (Extractor.enhance_tournament_data c3sc [c3raw]).map
        (fun ts => ts.map (fun t => getField t "name")) = .ok [some .null] ∧
    ((Extractor.enhance_tournament_data c3sc [c3raw]).bind
        Extractor.filter_by_confidence).bind Extractor.validate_tournament_data =
      .error .attributeError :=
  ⟨rfl, rfl⟩

/-- C4 counterexample: on the spec's end-to-end page text the dates list is
empty — no date regex matches the fragment Sep 2025, because the month
patterns require full month names and the numeric patterns require
slash-or-dash digit groups — refuting the claimed non-empty dates list. -/
theorem extract_dates_empty_on_scenario_text :
    Scraper._extract_dates c4content = [] :=
  rfl

/-- C4 amended: on the scenario text extractFields yields an empty dates
list and a non-empty location list (the venue line); in general the dates
list is deduplicated and capped at five entries. -/
theorem extract_fields_on_scenario_text :
    Scraper._extract_dates c4content = [] ∧
    Scraper._extract_location c4content = [c4content] ∧
    (∀ content : String, (Scraper._extract_dates content).Nodup ∧
      (Scraper._extract_dates content).length ≤ 5) := by
  refine ⟨rfl, rfl, fun content => ⟨?_, ?_⟩⟩
  · exact (pyListSet_nodup _).sublist (List.take_sublist _ _)
  · exact List.length_take_le _ _

/-- C7: the claim says each phone entry carries the matched ten-digit
number.  The phone pattern's only capturing group is the optional +91/91
prefix and re.findall returns group 1, so the entry carries just that
prefix: a bare ten-digit number yields the entry Phone: with nothing after
it, and a +91-prefixed number yields Phone: +91.  Email entries, whose
pattern has no group, do carry the matched address. -/
theorem contact_info_phone_entries_lack_number :
    Scraper._extract_contact_info "Call 9876543210" = ["Phone: "] ∧
    Scraper._extract_contact_info "Call +91 9876543210" = ["Phone: +91"] ∧
    Scraper._extract_contact_info "Write info@club.org" = ["Email: info@club.org"] :=
  ⟨rfl, rfl, rfl⟩

/-- C6 counterexample: the response consisting of an empty JSON object is a
single non-list JSON value, yet extract returns the empty list rather than
the promised singleton, because the promotion keeps only truthy values. -/
theorem extract_drops_falsy_nonlist_value :
    Json.jsonLoads (Extractor.fixedJsonStr "\x7b\x7d") = .ok (.obj []) ∧
    pyTruthy (.obj []) = false ∧
    Extractor.processLLMResponse "\x7b\x7d" = [] ∧
    Extractor.processLLMResponse "\x7b\x7d" ≠ [Val.obj []] :=
  ⟨rfl, rfl, rfl, by
    intro h
    rw [show Extractor.processLLMResponse "\x7b\x7d" = [] from rfl] at h
    exact List.cons_ne_nil _ _ h.symm⟩

/-- C5 counterexample: a record without a confidence_score leaves enhance
with the value 0.0 (the .get default), not the claimed 0.5, and a record
whose confidence_score is null makes enhance raise a TypeError at
max(None, 0.0) instead of defaulting. -/
theorem enhance_confidence_missing_and_null :
    (Extractor.enhance_tournament_data [] [.obj [("name", .str "X")]]).map
        (fun ts => ts.map (fun t => getField t "confidence_score")) =
      .ok [some (.num (mkRat 0 1))] ∧
    Val.num (mkRat 0 1) ≠ Val.num (mkRat 1 2) ∧
    Extractor.enhance_tournament_data [] [.obj [("name", .str "X"),
      ("confidence_score", .null)]] = .error .typeError :=
  ⟨rfl, by simp only [ne_eq, Val.num.injEq]; decide, rfl⟩

/-- C5 amended: after enhance the confidence_score is the clamp into [0, 1]
of a numeric value; a string is parsed by float() and a non-parsing string
defaults to 0.5 before the clamp; a missing value defaults to 0.0 — and a
null value makes enhance raise a TypeError rather than defaulting. -/
theorem enhance_confidence_clamp_cases (sc fs : List (String × Val)) :
    (∀ q : ℚ, dictGet? fs "confidence_score" = some (.num q) →
       ∃ gs, Extractor.enhanceOne sc (.obj fs) = .ok (.obj gs) ∧
         dictGet? gs "confidence_score" = some (.num (Extractor.clamp01 q)) ∧
         mkRat 0 1 ≤ Extractor.clamp01 q ∧ Extractor.clamp01 q ≤ mkRat 1 1) ∧
    (∀ s : String, dictGet? fs "confidence_score" = some (.str s) →
       ∃ gs, Extractor.enhanceOne sc (.obj fs) = .ok (.obj gs) ∧
         dictGet? gs "confidence_score" =
           some (.num (Extractor.clamp01 ((pyFloatOfString s).getD (mkRat 1 2))))) ∧
    (dictGet? fs "confidence_score" = none →
       ∃ gs, Extractor.enhanceOne sc (.obj fs) = .ok (.obj gs) ∧
         dictGet? gs "confidence_score" = some (.num (mkRat 0 1))) ∧
    (dictGet? fs "confidence_score" = some .null →
       Extractor.enhanceOne sc (.obj fs) = .error .typeError) := by
  refine ⟨?_, ?_, ?_, ?_⟩
  · intro q hq
    have hc : Extractor.confFrom (Extractor.stampContext sc fs) = .ok q := by
      rw [confFrom_stamp, hq]
      rfl
    obtain ⟨gs, h1, h2⟩ := enhanceOne_out_conf sc fs q hc
    exact ⟨gs, h1, h2, clamp01_bounds q⟩
  · intro s hs
    have hc : Extractor.confFrom (Extractor.stampContext sc fs) =
        .ok ((pyFloatOfString s).getD (mkRat 1 2)) := by
      rw [confFrom_stamp, hs]
      rfl
    exact enhanceOne_out_conf sc fs _ hc
  · intro hnone
    have hc : Extractor.confFrom (Extractor.stampContext sc fs) = .ok (mkRat 0 1) := by
      rw [confFrom_stamp, hnone]
      rfl
    obtain ⟨gs, h1, h2⟩ := enhanceOne_out_conf sc fs _ hc
    exact ⟨gs, h1, by rw [h2]; rfl⟩
  · intro hnull
    have hc : Extractor.confFrom (Extractor.stampContext sc fs) = .error .typeError := by
      rw [confFrom_stamp, hnull]
      rfl
    exact enhanceOne_err_of_conf sc fs _ hc

/-- Witness for the amended C5 statement at the spec's own examples: the
string 1.5 clamps to 1.0, the string abc defaults to 0.5, and a null
confidence raises. -/
theorem enhance_confidence_clamp_cases_witness :
    ((∃ gs, Extractor.enhanceOne [] (.obj [("confidence_score", .str "1.5")]) =
        .ok (.obj gs) ∧
      dictGet? gs "confidence_score" =
        some (.num (Extractor.clamp01 ((pyFloatOfString "1.5").getD (mkRat 1 2))))) ∧
     Extractor.clamp01 ((pyFloatOfString "1.5").getD (mkRat 1 2)) = mkRat 1 1) ∧
    ((∃ gs, Extractor.enhanceOne [] (.obj [("confidence_score", .str "abc")]) =
        .ok (.obj gs) ∧
      dictGet? gs "confidence_score" =
        some (.num (Extractor.clamp01 ((pyFloatOfString "abc").getD (mkRat 1 2))))) ∧
     Extractor.clamp01 ((pyFloatOfString "abc").getD (mkRat 1 2)) = mkRat 1 2) ∧
    Extractor.enhanceOne [] (.obj [("confidence_score", .null)]) = .error .typeError :=
  ⟨⟨(enhance_confidence_clamp_cases [] [("confidence_score", .str "1.5")]).2.1 "1.5" rfl,
    rfl⟩,
   ⟨(enhance_confidence_clamp_cases [] [("confidence_score", .str "abc")]).2.1 "abc" rfl,
    rfl⟩,
   (enhance_confidence_clamp_cases [] [("confidence_score", .null)]).2.2.2 rfl⟩

/-- C6 amended: on every model response the extraction returns a list with
no unhandled fault — the parsed array, a singleton of a truthy non-list
JSON value, the empty list for a falsy non-list value, or the fallback scan
on parse failure — and on the spec's malformed example the parse fails and
the (empty) fallback result is returned. -/
theorem extract_never_raises_and_promotes_truthy :
    (∀ resp : String,
      (∃ xs, Json.jsonLoads (Extractor.fixedJsonStr resp) = .ok (.arr xs) ∧
        Extractor.processLLMResponse resp = xs) ∨
      (∃ v, Json.jsonLoads (Extractor.fixedJsonStr resp) = .ok v ∧
        (∀ xs, v ≠ .arr xs) ∧ pyTruthy v = true ∧
        Extractor.processLLMResponse resp = [v]) ∨
      (∃ v, Json.jsonLoads (Extractor.fixedJsonStr resp) = .ok v ∧
        (∀ xs, v ≠ .arr xs) ∧ pyTruthy v = false ∧
        Extractor.processLLMResponse resp = []) ∨
      (∃ e, Json.jsonLoads (Extractor.fixedJsonStr resp) = .error e ∧
        Extractor.processLLMResponse resp =
          Extractor._fallback_parse (Extractor.cleanedResponse resp))) ∧
    Extractor.processLLMResponse malformedJson = [] ∧
    Extractor._fallback_parse (Extractor.cleanedResponse malformedJson) = [] := by
  refine ⟨?_, rfl, rfl⟩
  intro resp
  have aux : ∀ v, Json.jsonLoads (Extractor.fixedJsonStr resp) = .ok v →
      (∀ xs, v ≠ Val.arr xs) →
      Extractor.processLLMResponse resp = if pyTruthy v then [v] else [] := by
    intro v hv hne
    simp only [Extractor.processLLMResponse]
    rw [hv]
    cases v with
    | arr xs => exact absurd rfl (hne xs)
    | null => rfl
    | bool b => rfl
    | num q => rfl
    | str s => rfl
    | obj fs => rfl
  cases h : Json.jsonLoads (Extractor.fixedJsonStr resp) with
  | error e =>
    refine Or.inr (Or.inr (Or.inr ⟨e, rfl, ?_⟩))
    simp only [Extractor.processLLMResponse]
    rw [h]
  | ok v =>
    by_cases ha : ∃ xs, v = Val.arr xs
    · obtain ⟨xs, rfl⟩ := ha
      refine Or.inl ⟨xs, rfl, ?_⟩
      simp only [Extractor.processLLMResponse]
      rw [h]
    · have hne : ∀ xs, v ≠ Val.arr xs := fun xs hx => ha ⟨xs, hx⟩
      have he := aux v h hne
      cases ht : pyTruthy v with
      | true => exact Or.inr (Or.inl ⟨v, rfl, hne, ht, by simp [he, ht]⟩)
      | false => exact Or.inr (Or.inr (Or.inl ⟨v, rfl, hne, ht, by simp [he, ht]⟩))

/-- C9: prioritize_results stable-sorts by relevance descending then
provider position ascending and assigns 1-based ranks: the output is a
permutation of the input (up to the written rank field), pairwise ordered
by the sort key, ranked by sorted index; two outputs with equal relevance
appear with non-decreasing positions, and two inputs with equal full keys
keep their input order. -/
theorem prioritize_stable_sort (results : List SearchResult) :
    ((prioritize_results results).map clearRank).Perm (results.map clearRank) ∧
    (prioritize_results results).Pairwise (fun a b => srLE a b = true) ∧
    (∀ i (h : i < (prioritize_results results).length),
      ((prioritize_results results).get ⟨i, h⟩).priority_rank = some (i + 1)) ∧
    (∀ (i j : Fin (prioritize_results results).length), i < j →
      ((prioritize_results results).get i).relevance_score.getD (mkRat 0 1) =
        ((prioritize_results results).get j).relevance_score.getD (mkRat 0 1) →
      ((prioritize_results results).get i).position.getD 999 ≤
        ((prioritize_results results).get j).position.getD 999) ∧
    (∀ a b, List.Sublist [a, b] results → srKey a = srKey b →
      List.Sublist [clearRank a, clearRank b]
        ((prioritize_results results).map clearRank)) := by
  have hsorted : (results.mergeSort srLE).Pairwise (fun a b => srLE a b = true) :=
    List.sorted_mergeSort srLE_trans srLE_total results
  have hpair : (prioritize_results results).Pairwise (fun a b => srLE a b = true) :=
    assignRanks_pairwise _ 0 hsorted
  refine ⟨?_, hpair, ?_, ?_, ?_⟩
  · unfold prioritize_results
    rw [assignRanks_map_clearRank]
    exact (List.mergeSort_perm results srLE).map clearRank
  · intro i h
    have := assignRanks_get_rank (results.mergeSort srLE) 0 i h
    simpa using this
  · intro i j hij hrel
    have hle := (List.pairwise_iff_get.mp hpair) i j hij
    rw [srLE_iff] at hle
    have hkey1 : (srKey ((prioritize_results results).get i)).1 =
        (srKey ((prioritize_results results).get j)).1 := congrArg Rat.neg hrel
    rcases hle with h1 | ⟨_, h2⟩
    · exact absurd (hkey1 ▸ h1) (lt_irrefl _)
    · exact h2
  · intro a b hsub hkey
    have hab : srLE a b = true := srLE_refl_of_key_eq a b hkey
    have h1 := List.pair_sublist_mergeSort srLE_trans srLE_total hab hsub
    have h2 := h1.map clearRank
    unfold prioritize_results
    rw [assignRanks_map_clearRank]
    simpa using h2

/-- Witness for the C9 statement on two concrete results with equal keys:
their order is preserved, ranks are 1 and 2, and positions are consistent. -/
theorem prioritize_stable_sort_witness :
    List.Sublist [clearRank srA, clearRank srB]
      ((prioritize_results [srA, srB]).map clearRank) ∧
    ((prioritize_results [srA, srB]).get
      ⟨0, by rw [prioritize_length]; decide⟩).priority_rank = some 1 :=
  ⟨(prioritize_stable_sort [srA, srB]).2.2.2.2 srA srB (List.Sublist.refl _) rfl,
   (prioritize_stable_sort [srA, srB]).2.2.1 0 (by rw [prioritize_length]; decide)⟩

/-- C10: every record in the final output of the extraction stage (enhance,
then the 0.7 confidence filter, then validate) carries a confidence_score
in [0.7, 1.0]; and records produced by the fallback parse, whose fixed
confidence is 0.5, are wiped out by the confidence filter (enhance on them
always succeeds and the filter returns the empty list), so none reaches
storage. -/
theorem extraction_output_confidence_invariant :
    (∀ (sc : List (String × Val)) (raw es kept out : List Val),
      Extractor.enhance_tournament_data sc raw = .ok es →
      Extractor.filter_by_confidence es = .ok kept →
      Extractor.validate_tournament_data kept = .ok out →
      ∀ t ∈ out, ∃ q : ℚ, getField t "confidence_score" = some (.num q) ∧
        mkRat 7 10 ≤ q ∧ q ≤ mkRat 1 1) ∧
    (∀ (sc : List (String × Val)) (resp : String),
      ∃ es, Extractor.enhance_tournament_data sc (Extractor._fallback_parse resp) = .ok es ∧
        Extractor.filter_by_confidence es = .ok []) := by
  refine ⟨?_, fun sc resp => fallback_enhance_filter_empty sc resp⟩
  intro sc raw es kept out h1 h2 h3 t ht
  obtain ⟨t0, ht0, hv⟩ := validate_ok_mem kept out h3 t ht
  obtain ⟨fs0, rfl, hc⟩ := validateOne_some_shape t0 t hv
  obtain ⟨hmem_es, hconf⟩ := filter_ok_mem es kept h2 _ ht0
  obtain ⟨traw, htraw, henh⟩ := enhance_ok_mem sc raw es h1 _ hmem_es
  obtain ⟨gs, q0, hshape, hlook⟩ := enhanceOne_ok_shape sc traw _ henh
  injection hshape with hshape
  subst hshape
  have h7 : mkRat 7 10 ≤ Extractor.clamp01 q0 :=
    confAtLeastMin_true fs0 _ hlook hconf
  obtain ⟨gs', hcl, hlook2⟩ :=
    cleanTournament_preserves_num fs0 "confidence_score" _ hlook
  refine ⟨Extractor.clamp01 q0, ?_, h7, (clamp01_bounds q0).2⟩
  rw [hc, hcl]
  simpa [getField] using hlook2

/-- C8: dedup keeps exactly the first occurrence of each query under
lower-cased, stripped text equality (the kept list is a subsequence of the
input with pairwise distinct keys, every input key is represented, and
every kept query is the first input query with its key), hence dedup is
idempotent; two queries differing only in case and surrounding whitespace
collapse to the earlier one. -/
theorem dedup_first_occurrence_idempotent (queries : List Query) :
    step3_remove_duplicates (step3_remove_duplicates queries) =
      step3_remove_duplicates queries ∧
    List.Sublist (step3_remove_duplicates queries) queries ∧
    ((step3_remove_duplicates queries).map queryKey).Nodup ∧
    (∀ q ∈ queries, ∃ q', q' ∈ step3_remove_duplicates queries ∧
      queryKey q' = queryKey q) ∧
    (∀ q ∈ step3_remove_duplicates queries,
      queries.find? (fun p => queryKey p == queryKey q) = some q) ∧
    step3_remove_duplicates [cricketQ1, cricketQ2] = [cricketQ1] := by
  refine ⟨removeDupsAux_idem queries [], removeDupsAux_sublist queries [],
    removeDupsAux_keys_nodup queries [], ?_, ?_, rfl⟩
  · intro q hq
    rcases removeDupsAux_covers queries [] q hq with h | h
    · simp at h
    · exact h
  · intro q hq
    exact (removeDupsAux_first queries [] q hq).2

/-- Witness for the C8 statement at the collapsing pair: the dedup of the
two equivalent cricket queries keeps a query with the key of the second,
and the first query is the first occurrence found for its key. -/
theorem dedup_first_occurrence_idempotent_witness :
    (∃ q', q' ∈ step3_remove_duplicates [cricketQ1, cricketQ2] ∧
      queryKey q' = queryKey cricketQ2) ∧
    [cricketQ1, cricketQ2].find?
      (fun p => queryKey p == queryKey cricketQ1) = some cricketQ1 :=
  ⟨(dedup_first_occurrence_idempotent [cricketQ1, cricketQ2]).2.2.2.1 cricketQ2
      (by decide),
   (dedup_first_occurrence_idempotent [cricketQ1, cricketQ2]).2.2.2.2.1 cricketQ1
      (by rw [show step3_remove_duplicates [cricketQ1, cricketQ2] = [cricketQ1] from rfl]
          exact List.mem_singleton.mpr rfl)⟩

/-- Witness for the C10 invariant: a well-formed record with confidence 0.9
flows through the three stages and the surviving record's confidence lies
in [0.7, 1.0]. -/
theorem extraction_output_confidence_invariant_witness :
    ∃ q : ℚ,
      getField (((Extractor.validate_tournament_data
          ((Extractor.filter_by_confidence
            ((Extractor.enhance_tournament_data c3sc [c10raw]).toOption.getD [])).toOption.getD
              [])).toOption.getD []).getD 0 Val.null) "confidence_score" =
        some (.num q) ∧ mkRat 7 10 ≤ q ∧ q ≤ mkRat 1 1 :=
  extraction_output_confidence_invariant.1 c3sc [c10raw] _ _ _ rfl rfl rfl _
    (getD_mem_of_lt _ 0 Val.null (by decide))

end SportsCal
